import Mathlib

/-
Verification of the scrollback navigation mode ("scroll mode") of a terminal
emulator, as implemented in kitty/scroll_mode.py.  The Python module is shallowly
embedded below: each Python method becomes a Lean function over an explicit
`World` state (the mode's fields together with the window's screen and the
external collaborators the module touches: marker, clipboard, tab bar).

Unicode cell widths: the source decides wideness via
unicodedata.east_asian_width(ch) in ('W', 'F').  That classification is an
external lookup table, so the whole development is parametrised by a predicate
`iW : Char → Bool` ("is wide"); every statement proved holds for every such
classification, and concrete witnesses instantiate it with the classification of
the characters they use.

Python strings are embedded as `List Char`; Python ints as `Int` (cursor fields
can be negative transiently); counts and list indexes as `Nat`.
-/

namespace ScrollMode

/- Ascending range [s, s+n) of naturals, used to embed Python for-loops over
range(a, b).  Recursive so that loop proofs can proceed by induction. -/
def rangeFrom (s : Nat) : Nat → List Nat
  | 0 => []
  | n + 1 => s :: rangeFrom (s + 1) n

/- Descending range [e, e-1, ..., 0], used to embed right-to-left string scans
(Python str.rfind). -/
def rangeDown : Nat → List Nat
  | 0 => [0]
  | n + 1 => (n + 1) :: rangeDown n

/- Python range(a, b) over Int, ascending. -/
def intRangeAux (a : Int) : Nat → List Int
  | 0 => []
  | n + 1 => a :: intRangeAux (a + 1) n

def intRange (a b : Int) : List Int := intRangeAux a (b - a).toNat

/- Python range(a, b, -1) over Int: a, a-1, ..., b+1. -/
def intRangeDescAux (a : Int) : Nat → List Int
  | 0 => []
  | n + 1 => a :: intRangeDescAux (a - 1) n

def intRangeDesc (a b : Int) : List Int := intRangeDescAux a (a - b).toNat

/- Embeds _char_width: 2 if east-asian width is Wide or Fullwidth else 1. -/
def charWidth (iW : Char → Bool) (ch : Char) : Nat := if iW ch then 2 else 1

/- Total cell width of a string (sum of character widths). -/
def listWidth (iW : Char → Bool) (l : List Char) : Nat :=
  l.foldr (fun ch acc => charWidth iW ch + acc) 0

/- Embeds the loop of _cell_to_char_idx: walk the string accumulating cell
widths (accumulator `cell`), counting characters (accumulator `idx`); on
`cell >= cell_x` return idx, after the loop return len(text). -/
def cellToCharIdxAux (iW : Char → Bool) (cellX : Int) : List Char → Int → Nat → Nat
  | [], _, idx => idx
  | ch :: rest, cell, idx =>
    if cellX ≤ cell then idx
    else cellToCharIdxAux iW cellX rest (cell + charWidth iW ch) (idx + 1)

/- Embeds _cell_to_char_idx(text, cell_x). -/
def cellToCharIdx (iW : Char → Bool) (text : List Char) (cellX : Int) : Nat :=
  cellToCharIdxAux iW cellX text 0 0

/- Accumulator-free recursion equivalent to cellToCharIdxAux, used in proofs. -/
def c2cSimple (iW : Char → Bool) : List Char → Int → Nat
  | [], _ => 0
  | ch :: rest, x => if x ≤ 0 then 0 else c2cSimple iW rest (x - charWidth iW ch) + 1

/- Embeds the loop of _snap_cell_x over the line's text: return the starting
cell of the character spanning cell_x, or cell_x itself past the end. -/
def snapCellAux (iW : Char → Bool) (cellX : Int) : List Char → Int → Int
  | [], _ => cellX
  | ch :: rest, cell =>
    if cellX < cell + charWidth iW ch then cell
    else snapCellAux iW cellX rest (cell + charWidth iW ch)

def snapCellText (iW : Char → Bool) (text : List Char) (cellX : Int) : Int :=
  snapCellAux iW cellX text 0

/- Accumulator-free recursion equivalent to snapCellAux, used in proofs. -/
def snapSimple (iW : Char → Bool) : List Char → Int → Int
  | [], x => x
  | ch :: rest, x =>
    if x < charWidth iW ch then 0
    else snapSimple iW rest (x - charWidth iW ch) + charWidth iW ch

/- Whitespace as Python str.isspace / str.rstrip treat it (ASCII part; the
unicode space classes do not occur in terminal line content). -/
def pySpace (c : Char) : Bool :=
  c = ' ' || c = '\t' || c = '\n' || c = '\x0d' || c = '\x0b' || c = '\x0c'

/- Embeds Python str.rstrip(): drop trailing whitespace. -/
def rstrip (l : List Char) : List Char := (l.reverse.dropWhile pySpace).reverse

/- Embeds Python str.lower() character-wise. -/
def lowerStr (l : List Char) : List Char := l.map Char.toLower

/- Embeds Python l[a:b] for 0 ≤ a, b. -/
def pySlice (l : List Char) (a b : Nat) : List Char := (l.take b).drop a

/- Embeds Python str.find(sub, start): smallest index ≥ start at which sub
occurs, scanning left to right.  A negative start counts from the end of the
string, as in Python slice semantics. -/
def findIn (q l : List Char) (start : Int) : Option Nat :=
  let s := (if start < 0 then max 0 ((l.length : Int) + start) else start).toNat
  (rangeFrom s (l.length + 1 - s)).find? (fun c => q.isPrefixOf (l.drop c))

/- Embeds Python str.rfind(sub, 0, e): largest index c with sub occurring at c
and c + len(sub) ≤ min(e, len(l)), scanning right to left. -/
def rfindIn (q l : List Char) (e : Int) : Option Nat :=
  let e' := (if e < 0 then max 0 ((l.length : Int) + e) else min e (l.length : Int)).toNat
  (rangeDown l.length).find? (fun c => decide (c + q.length ≤ e') && q.isPrefixOf (l.drop c))

/- Embeds the while-loop of _find_all_matches over one (already case-folded)
line: repeatedly find(query, start) and restart at col + 1.  Fuel bounds the
iteration count; l.length + 1 suffices for a nonempty query (proved below). -/
def lineMatchesAux (q l : List Char) : Nat → Nat → List Nat
  | 0, _ => []
  | fuel + 1, start =>
    match findIn q l (start : Int) with
    | none => []
    | some col => col :: lineMatchesAux q l fuel (col + 1)

def lineMatchesFound (q l : List Char) : List Nat :=
  lineMatchesAux q l (l.length + 1) 0

/- All positions at which q occurs in l (specification form of the find loop). -/
def occurrences (q l : List Char) : List Nat :=
  (rangeFrom 0 (l.length + 1)).filter (fun c => q.isPrefixOf (l.drop c))

/- The three states of the input state machine (class ScrollModeState). -/
inductive ScrollModeState where
  | NAVIGATE
  | SEARCH
  | SELECT
  deriving DecidableEq

/- Selection modes; the source uses the strings 'char', 'line', 'block'. -/
inductive SelMode where
  | char
  | line
  | block
  deriving DecidableEq

/- GLFW modifier bits (actual values from the GLFW headers). -/
def GLFW_MOD_SHIFT : Nat := 1
def GLFW_MOD_CONTROL : Nat := 2
def GLFW_MOD_ALT : Nat := 4

/- GLFW functional key codes, modelled as opaque distinct constants above the
printable range (only distinctness and disjointness from ord values matter). -/
def GLFW_FKEY_ESCAPE : Nat := 0xe001
def GLFW_FKEY_ENTER : Nat := 0xe002
def GLFW_FKEY_KP_ENTER : Nat := 0xe003
def GLFW_FKEY_BACKSPACE : Nat := 0xe004
def GLFW_FKEY_UP : Nat := 0xe005
def GLFW_FKEY_DOWN : Nat := 0xe006
def GLFW_FKEY_LEFT : Nat := 0xe007
def GLFW_FKEY_RIGHT : Nat := 0xe008
def GLFW_FKEY_PAGE_UP : Nat := 0xe009
def GLFW_FKEY_PAGE_DOWN : Nat := 0xe00a

/- Key event action phases. -/
def GLFW_PRESS : Nat := 1
def GLFW_REPEAT : Nat := 2
def GLFW_RELEASE : Nat := 0

/- Embeds KeyEvent: key code, modifier bits, produced text, action phase. -/
structure KeyEvent where
  key : Nat
  mods : Nat
  text : List Char
  action : Nat
  deriving DecidableEq

/- Python ord for the ASCII keys the module dispatches on. -/
def ord (c : Char) : Nat := c.toNat

/- The external screen of the window the mode operates on, exposing the narrow
interface scroll_mode.py consumes (spec section 6).  History lines are indexed
newest first, as historybuf is; live lines top to bottom; is_continued flags
are carried as parallel lists.  The render fields store the last values pushed
through set_scroll_cursor / set_scroll_selection / set_marker. -/
structure Screen where
  history : List (List Char)
  live : List (List Char)
  histCont : List Bool
  liveCont : List Bool
  columns : Nat
  scrolledBy : Nat
  cursorX : Nat
  cursorY : Nat
  mainLinebuf : Bool
  scrollPaused : Bool
  flushed : Bool
  marker : Option (List Char)
  renderCursor : Int × Int × Nat × Nat
  renderSelection : Nat × Int × Int × Int × Int
  deriving DecidableEq

/- screen.lines: the number of live (visible) rows. -/
def Screen.lines (s : Screen) : Nat := s.live.length

/- screen.scroll(n, upwards) with a numeric amount: moves scrolled_by by n,
clamped to [0, historybuf.count]. -/
def Screen.scrollBy (s : Screen) (n : Int) (up : Bool) : Screen :=
  if up then
    { s with scrolledBy := (min ((s.scrolledBy : Int) + n) (s.history.length : Int)).toNat }
  else
    { s with scrolledBy := (max ((s.scrolledBy : Int) - n) 0).toNat }

/- screen.scroll(SCROLL_FULL, False): return to the bottom of the buffer. -/
def Screen.scrollFullDown (s : Screen) : Screen := { s with scrolledBy := 0 }

/- The combined state: the ScrollMode object's fields (prefixed section of the
structure), the screen of its single window, and the external collaborators.
windowSet models self._window being non-None; tmSet models self._tab_manager
being non-None; tabBarOk models the tab manager existing with a visible tab
bar; wordChars models get_options().select_by_word_characters. -/
structure World where
  active : Bool
  smstate : ScrollModeState
  windowSet : Bool
  isAlt : Bool
  cursorAbs : Int
  cursorX : Int
  searchQuery : List Char
  searchBackwards : Bool
  selStartAbs : Int
  selStartX : Int
  selMode : Option SelMode
  selPrevMode : Option SelMode
  dragActive : Bool
  dragStarted : Bool
  dragPressY : Int
  dragPressX : Int
  tmSet : Bool
  screen : Screen
  clipboard : List Char
  tabBarOk : Bool
  tabBarDirty : Bool
  wordChars : List Char
  deriving DecidableEq

/- _total_lines: history + live on the main buffer, live only on the alternate
buffer, 0 when no window is held. -/
def totalLines (w : World) : Nat :=
  if ¬ w.windowSet then 0
  else if w.isAlt then w.screen.lines
  else w.screen.history.length + w.screen.lines

/- _viewport_top: absolute index of the top visible line. -/
def viewportTop (w : World) : Int :=
  if ¬ w.windowSet then 0
  else if w.isAlt then 0
  else (w.screen.history.length : Int) - (w.screen.scrolledBy : Int)

/- _get_line_text: map an absolute line index to its text.  On the main buffer
abs < history_count reads history reversed, otherwise the live buffer.  An
out-of-range read raises IndexError in Python and every call site skips the
line; in the model (where the lists are the ground truth and cannot be trimmed
concurrently) such reads only arise outside [0, total) and yield ''. -/
def getLineText (w : World) (absLine : Int) : List Char :=
  if ¬ w.windowSet then []
  else if w.isAlt then
    if 0 ≤ absLine then w.screen.live.getD absLine.toNat [] else []
  else
    let h := w.screen.history.length
    if absLine < 0 then []
    else if absLine < h then w.screen.history.getD (h - 1 - absLine.toNat) []
    else w.screen.live.getD (absLine.toNat - h) []

/- _is_line_continued: whether absLine is a soft-wrap continuation. -/
def isLineContinued (w : World) (absLine : Int) : Bool :=
  if ¬ w.windowSet ∨ absLine ≤ 0 then false
  else if w.isAlt then w.screen.liveCont.getD absLine.toNat false
  else
    let h := w.screen.history.length
    if absLine < h then w.screen.histCont.getD (h - 1 - absLine.toNat) false
    else
      let lb := absLine.toNat - h
      if lb = 0 then
        if 0 < h then w.screen.histCont.getD 0 false else false
      else w.screen.liveCont.getD lb false

/- _snap_cell_x(abs_line, cell_x). -/
def snapCellX (iW : Char → Bool) (w : World) (absLine : Int) (cellX : Int) : Int :=
  snapCellText iW (getLineText w absLine) cellX

/- _mark_dirty: request a tab bar redraw when a tab manager is held. -/
def markDirty (w : World) : World :=
  if w.tmSet then { w with tabBarDirty := true } else w

/- The tuple _sync_selection passes to set_scroll_selection. -/
def syncSelectionVal (iW : Char → Bool) (w : World) : Nat × Int × Int × Int × Int :=
  if w.selMode = none ∨ w.smstate ≠ ScrollModeState.SELECT then (0, 0, 0, 0, 0)
  else
    let vt := viewportTop w
    let numLines : Int := w.screen.lines
    let n :=
      if w.selStartAbs < w.cursorAbs ∨
          (w.selStartAbs = w.cursorAbs ∧ w.selStartX ≤ w.cursorX) then
        (w.selStartAbs, w.selStartX, w.cursorAbs, w.cursorX)
      else
        (w.cursorAbs, w.cursorX, w.selStartAbs, w.selStartX)
    let startVy := n.1 - vt
    let endVy := n.2.2.1 - vt
    if endVy < 0 ∨ startVy ≥ numLines then (0, 0, 0, 0, 0)
    else
      let p1 := if startVy < 0 then ((0 : Int), (0 : Int)) else (startVy, n.2.1)
      let p2 :=
        if endVy ≥ numLines then (numLines - 1, (w.screen.columns : Int) - 1)
        else (endVy, n.2.2.2)
      let selType : Nat :=
        if w.selMode = some SelMode.line then 2
        else if w.selMode = some SelMode.block then 3 else 1
      let xs :=
        if selType = 2 then ((0 : Int), (w.screen.columns : Int) - 1)
        else if selType = 3 then (w.selStartX, w.cursorX)
        else
          let endLine := getLineText w n.2.2.1
          let ci := cellToCharIdx iW endLine p2.2
          if h : ci < endLine.length then
            if charWidth iW (endLine.get ⟨ci, h⟩) = 2 then (p1.2, p2.2 + 1)
            else (p1.2, p2.2)
          else (p1.2, p2.2)
      (selType, xs.1, p1.1, xs.2, p2.1)

/- _sync_selection: push selection highlight bounds to the rendering layer
(the only mutation is the screen's selection rectangle). -/
def syncSelection (iW : Char → Bool) (w : World) : World :=
  if ¬ w.windowSet then w
  else { w with screen := { w.screen with renderSelection := syncSelectionVal iW w } }

/- The tuple _sync_cursor passes to set_scroll_cursor. -/
def syncCursorVal (iW : Char → Bool) (w : World) : Int × Int × Nat × Nat :=
  let vy := w.cursorAbs - viewportTop w
  let vy := max 0 (min vy ((w.screen.lines : Int) - 1))
  let text := getLineText w w.cursorAbs
  let ci := cellToCharIdx iW text w.cursorX
  let cw := if h : ci < text.length then charWidth iW (text.get ⟨ci, h⟩) else 1
  (w.cursorX, vy, 1, cw)

/- _sync_cursor: push cursor position (and, via _sync_selection, selection
bounds) to the rendering layer. -/
def syncCursor (iW : Char → Bool) (w : World) : World :=
  if ¬ w.windowSet then w
  else
    syncSelection iW
      { w with screen := { w.screen with renderCursor := syncCursorVal iW w } }

/- _ensure_cursor_visible: clamp the cursor to the buffer and the columns, then
scroll the main-buffer viewport the minimal amount to contain it. -/
def ensureCursorVisible (w : World) : World :=
  if ¬ w.windowSet then w
  else
    let total : Int := totalLines w
    let w := { w with
      cursorAbs := max 0 (min w.cursorAbs (total - 1)),
      cursorX := max 0 (min w.cursorX ((w.screen.columns : Int) - 1)) }
    if w.isAlt then w
    else
      let vt := viewportTop w
      let vb := vt + (w.screen.lines : Int) - 1
      if w.cursorAbs < vt then
        { w with screen := w.screen.scrollBy (vt - w.cursorAbs) true }
      else if w.cursorAbs > vb then
        { w with screen := w.screen.scrollBy (w.cursorAbs - vb) false }
      else w

/- _move_cursor(dy, dx): relative cursor move with wide-character snapping; a
rightward move that snaps back onto or before the old position instead
advances past the full width of the character under the old position. -/
def moveCursor (iW : Char → Bool) (w : World) (dy dx : Int) : World :=
  let oldX := w.cursorX
  let w1 := { w with cursorAbs := w.cursorAbs + dy, cursorX := w.cursorX + dx }
  let w2 := ensureCursorVisible w1
  let snapped := snapCellX iW w2 w2.cursorAbs w2.cursorX
  let snapped :=
    if 0 < dx ∧ snapped ≤ oldX then
      let text := getLineText w2 w2.cursorAbs
      let ci := cellToCharIdx iW text oldX
      if h : ci < text.length then oldX + charWidth iW (text.get ⟨ci, h⟩)
      else snapped
    else snapped
  markDirty (syncCursor iW { w2 with cursorX := snapped })

/- _move_cursor_to(abs_line, x): absolute cursor move with snapping. -/
def moveCursorTo (iW : Char → Bool) (w : World) (absLine x : Int) : World :=
  let w1 := { w with cursorAbs := absLine, cursorX := x }
  let w2 := ensureCursorVisible w1
  markDirty (syncCursor iW { w2 with cursorX := snapCellX iW w2 w2.cursorAbs w2.cursorX })

/- enter(window, silent): activate the mode.  Refused (with the tab-manager
reference dropped) when the tab bar is unavailable; tabBarOk models the tab
manager being found with a visible tab bar.  clear_selection on the external
screen has no observable footprint in this model. -/
def enter (iW : Char → Bool) (w : World) : World :=
  if ¬ w.tabBarOk then { w with tmSet := false }
  else
    let w := { w with
      tmSet := true, windowSet := true, active := true,
      smstate := ScrollModeState.NAVIGATE, searchQuery := [], selMode := none,
      isAlt := ¬ w.screen.mainLinebuf,
      screen := { w.screen with scrollPaused := true } }
    let w :=
      if w.isAlt then
        { w with cursorAbs := w.screen.cursorY, cursorX := w.screen.cursorX }
      else
        { w with cursorAbs := (w.screen.history.length : Int) + w.screen.cursorY,
                 cursorX := w.screen.cursorX }
    markDirty (syncCursor iW w)

/- exit(): deactivate and restore normal terminal state. -/
def exitMode (w : World) : World :=
  let w :=
    if w.windowSet then
      let scr := { w.screen with
        renderCursor := (0, 0, 0, 1), renderSelection := (0, 0, 0, 0, 0),
        marker := none, flushed := true, scrollPaused := false }
      let scr := if ¬ w.isAlt then scr.scrollFullDown else scr
      { w with screen := scr, isAlt := false }
    else w
  let w := markDirty w
  { w with active := false, selMode := none, windowSet := false, tmSet := false }

/- enter_search(window): activate directly in the SEARCH state. -/
def enterSearch (iW : Char → Bool) (w : World) : World :=
  let w := enter iW w
  if w.active then
    markDirty { w with searchBackwards := true, searchQuery := [],
                       smstate := ScrollModeState.SEARCH }
  else w

/- _apply_search_marker: install a case-insensitive literal marker for the
query (marker_from_regex over re.escape(query); the escape precludes re.error,
so the except branch is dead).  The marker is modelled by the query itself. -/
def applySearchMarker (w : World) : World :=
  if ¬ w.windowSet ∨ w.searchQuery = [] then w
  else { w with screen := { w.screen with marker := some w.searchQuery } }

/- _clear_search_marker. -/
def clearSearchMarker (w : World) : World :=
  if ¬ w.windowSet then w
  else { w with screen := { w.screen with marker := none } }

/- The case-folded text of an absolute line. -/
def lowLine (w : World) (i : Int) : List Char := lowerStr (getLineText w i)

/- _find_all_matches: every (abs_line, col) at which the case-folded query
occurs in the case-folded line text, scanning all lines top to bottom. -/
def findAllMatches (w : World) : List (Nat × Nat) :=
  if ¬ w.windowSet ∨ w.searchQuery = [] then []
  else
    let q := lowerStr w.searchQuery
    (rangeFrom 0 (totalLines w)).foldl
      (fun (acc : List (Nat × Nat)) (a : Nat) =>
        acc ++ (lineMatchesFound q (lowLine w a)).map (fun c => (a, c))) []

/- Embeds the line loops of _jump_to_match and _jump_to_prompt: run down a list
of line indexes and stop at the first line on which the scan yields a column. -/
def scanLines (f : Int → Option Nat) : List Int → Option (Int × Nat)
  | [] => none
  | a :: rest =>
    match f a with
    | some c => some (a, c)
    | none => scanLines f rest

/- _jump_to_match(backwards): current line first (before / after the cursor
column), then line by line in the requested direction, finally wrapping around
the opposite end of the buffer, ending at the cursor's own line. -/
def jumpToMatch (iW : Char → Bool) (w : World) (backwards : Bool) : World :=
  if ¬ w.windowSet ∨ w.searchQuery = [] then w
  else
    let q := lowerStr w.searchQuery
    let total : Int := totalLines w
    let cur := w.cursorAbs
    let curX := w.cursorX
    if backwards then
      match rfindIn q (lowLine w cur) curX with
      | some col => markDirty (syncCursor iW { w with cursorX := col })
      | none =>
        match scanLines (fun a => rfindIn q (lowLine w a) ((lowLine w a).length : Int))
            (intRangeDesc (cur - 1) (-1)) with
        | some r => moveCursorTo iW w r.1 r.2
        | none =>
          match scanLines (fun a => rfindIn q (lowLine w a) ((lowLine w a).length : Int))
              (intRangeDesc (total - 1) (cur - 1)) with
          | some r => moveCursorTo iW w r.1 r.2
          | none => w
    else
      match findIn q (lowLine w cur) (curX + 1) with
      | some col => markDirty (syncCursor iW { w with cursorX := col })
      | none =>
        match scanLines (fun a => findIn q (lowLine w a) 0) (intRange (cur + 1) total) with
        | some r => moveCursorTo iW w r.1 r.2
        | none =>
          match scanLines (fun a => findIn q (lowLine w a) 0) (intRange 0 (cur + 1)) with
          | some r => moveCursorTo iW w r.1 r.2
          | none => w

/- _jump_to_nearest_match: stay when the cursor already sits on a match, move
within the line when one starts later on it, otherwise jump inter-line. -/
def jumpToNearestMatch (iW : Char → Bool) (w : World) : World :=
  if ¬ w.windowSet ∨ w.searchQuery = [] then w
  else
    let q := lowerStr w.searchQuery
    match findIn q (lowLine w w.cursorAbs) w.cursorX with
    | some col =>
      if (col : Int) = w.cursorX then w
      else syncCursor iW { w with cursorX := col }
    | none => jumpToMatch iW w w.searchBackwards

/- The character class [\s\x00] of the prompt pattern. -/
def isSpaceOrNul (c : Char) : Bool := pySpace c || c = '\x00'

/- The single prompt glyphs of _PROMPT_PATTERN. -/
def promptGlyph (c : Char) : Bool := c = '❯' || c = '➜' || c = '⟩' || c = 'λ'

/- The prompt-ending characters of the [\$#%>] alternative. -/
def promptEnder (c : Char) : Bool := c = '$' || c = '#' || c = '%' || c = '>'

/- Does some alternative of _PROMPT_PATTERN match at the head of s (s being a
suffix of the line)?  For the anchored alternatives, [\s\x00]*$ matches
exactly when the whole remainder consists of \s or NUL characters: $ matches
at the end of the string or before a final newline, and the star (with \n in
the class) absorbs either form. -/
def promptMatchAt (s : List Char) : Bool :=
  (match s with | c :: _ => promptGlyph c | [] => false)
  || (match s with | ':' :: ')' :: t => t.all isSpaceOrNul | _ => false)
  || (match s with | c :: t => promptEnder c && t.all isSpaceOrNul | [] => false)
  || (match s with | '>' :: '>' :: '>' :: c :: _ => pySpace c | _ => false)
  || (match s with
      | 'I' :: 'n' :: t =>
        (match t.dropWhile pySpace with
         | '[' :: u =>
           !(u.takeWhile Char.isDigit).isEmpty &&
             (match u.dropWhile Char.isDigit with | ']' :: _ => true | _ => false)
         | _ => false)
      | _ => false)

/- _PROMPT_PATTERN.search(text): does the pattern match anywhere in the line? -/
def promptSearch (l : List Char) : Bool :=
  (rangeFrom 0 (l.length + 1)).any (fun i => promptMatchAt (l.drop i))

/- _jump_to_prompt(backwards): scan line by line in the requested direction
for a line matching the prompt pattern, wrapping once. -/
def jumpToPrompt (iW : Char → Bool) (w : World) (backwards : Bool) : World :=
  if ¬ w.windowSet then w
  else
    let total : Int := totalLines w
    let cur := w.cursorAbs
    let p := fun (a : Int) => promptSearch (getLineText w a)
    if backwards then
      match (intRangeDesc (cur - 1) (-1)).find? p with
      | some a => moveCursorTo iW w a 0
      | none =>
        match (intRangeDesc (total - 1) (cur - 1)).find? p with
        | some a => moveCursorTo iW w a 0
        | none => w
    else
      match (intRange (cur + 1) total).find? p with
      | some a => moveCursorTo iW w a 0
      | none =>
        match (intRange 0 (cur + 1)).find? p with
        | some a => moveCursorTo iW w a 0
        | none => w

/- enter_prompt_jump(window): on the main buffer, look for the closest prompt
line strictly above the terminal's real cursor; only when one exists enter the
mode and move to it.  self._window is set for the duration of the scan and
reset to None before entering. -/
def enterPromptJump (iW : Char → Bool) (w : World) : World :=
  if ¬ w.screen.mainLinebuf then w
  else
    let realCursorAbs : Int := (w.screen.history.length : Int) + w.screen.cursorY
    let wTmp := { w with windowSet := true }
    let found := (intRangeDesc (realCursorAbs - 1) (-1)).find?
      (fun a => promptSearch (getLineText wTmp a))
    let w1 := { wTmp with windowSet := false }
    match found with
    | none => w1
    | some fl =>
      let w2 := enter iW w1
      if w2.active then moveCursorTo iW w2 fl 0 else w2

/- _char_class: 0 whitespace, 1 alphanumeric or configured word character,
2 other (separator). -/
def charClass (w : World) (ch : Char) : Nat :=
  if pySpace ch then 0
  else if ch.isAlphanum || w.wordChars.contains ch then 1
  else 2

/- _line_cells: (char, starting cell) pairs of a line, truncated at cols. -/
def lineCellsAux (iW : Char → Bool) : List Char → Nat → Nat → List (Char × Nat)
  | [], _, _ => []
  | ch :: rest, cell, cols =>
    if cell ≥ cols then []
    else (ch, cell) :: lineCellsAux iW rest (cell + charWidth iW ch) cols

def lineCells (iW : Char → Bool) (w : World) (absLine : Int) (cols : Nat) :
    List (Char × Nat) :=
  lineCellsAux iW (getLineText w absLine) 0 cols

/- The for-else scan locating the cursor in a cells list: first index whose
cell is at or past the cursor column. -/
def findCellPosAux (x : Int) : List (Char × Nat) → Nat → Option Nat
  | [], _ => none
  | p :: rest, i => if x ≤ (p.2 : Int) then some i else findCellPosAux x rest (i + 1)

def findCellPos (cells : List (Char × Nat)) (x : Int) : Option Nat :=
  findCellPosAux x cells 0

/- while pos < len(cells) and class(cells[pos]) == cls: pos += 1 -/
def skipClass (cc : Char → Nat) (cells : List (Char × Nat)) (cls : Nat) :
    Nat → Nat → Nat
  | 0, pos => pos
  | fuel + 1, pos =>
    match cells.get? pos with
    | some p => if cc p.1 = cls then skipClass cc cells cls fuel (pos + 1) else pos
    | none => pos

/- while pos + 1 < len(cells) and class(cells[pos + 1]) == cls: pos += 1 -/
def skipGroupEnd (cc : Char → Nat) (cells : List (Char × Nat)) (cls : Nat) :
    Nat → Nat → Nat
  | 0, pos => pos
  | fuel + 1, pos =>
    match cells.get? (pos + 1) with
    | some p => if cc p.1 = cls then skipGroupEnd cc cells cls fuel (pos + 1) else pos
    | none => pos

/- while pos >= 0 and class(cells[pos]) == 0: pos -= 1 -/
def skipBackSpaces (cc : Char → Nat) (cells : List (Char × Nat)) :
    Nat → Int → Int
  | 0, pos => pos
  | fuel + 1, pos =>
    if pos < 0 then pos
    else
      match cells.get? pos.toNat with
      | some p => if cc p.1 = 0 then skipBackSpaces cc cells fuel (pos - 1) else pos
      | none => pos

/- while pos > 0 and class(cells[pos - 1]) == cls: pos -= 1 -/
def skipBackGroup (cc : Char → Nat) (cells : List (Char × Nat)) (cls : Nat) :
    Nat → Int → Int
  | 0, pos => pos
  | fuel + 1, pos =>
    if pos ≤ 0 then pos
    else
      match cells.get? (pos - 1).toNat with
      | some p => if cc p.1 = cls then skipBackGroup cc cells cls fuel (pos - 1) else pos
      | none => pos

/- The while-loop of the `w` branch of _word_move_forward.  Each iteration
either stops or advances to the next line, so 2 * total + 4 fuel (used by the
wrapper) is never exhausted. -/
def wordFwdWLoop (iW : Char → Bool) (w : World) (cc : Char → Nat)
    (cols total : Nat) :
    Nat → Int → List (Char × Nat) → Nat → Option (Int × List (Char × Nat) × Nat)
  | 0, _, _, _ => none
  | fuel + 1, lineAbs, cells, pos =>
    if pos ≥ cells.length then
      let lineAbs' := lineAbs + 1
      if lineAbs' ≥ (total : Int) then none
      else
        let cells' := lineCells iW w lineAbs' cols
        if ¬ cells'.isEmpty ∧ cc (cells'.headD (' ', 0)).1 ≠ 0 then
          some (lineAbs', cells', 0)
        else wordFwdWLoop iW w cc cols total fuel lineAbs' cells' 0
    else
      let cls := cc (cells.getD pos (' ', 0)).1
      let pos := if cls ≠ 0 then skipClass cc cells cls (cells.length + 1) pos else pos
      let pos := skipClass cc cells 0 (cells.length + 1) pos
      if pos < cells.length then some (lineAbs, cells, pos)
      else
        let lineAbs' := lineAbs + 1
        if lineAbs' ≥ (total : Int) then none
        else
          let cells' := lineCells iW w lineAbs' cols
          if ¬ cells'.isEmpty ∧ cc (cells'.headD (' ', 0)).1 ≠ 0 then
            some (lineAbs', cells', 0)
          else wordFwdWLoop iW w cc cols total fuel lineAbs' cells' 0

/- The while-loop of the `e` branch of _word_move_forward. -/
def wordFwdELoop (iW : Char → Bool) (w : World) (cc : Char → Nat)
    (cols total : Nat) :
    Nat → Int → List (Char × Nat) → Nat → Option (Int × List (Char × Nat) × Nat)
  | 0, _, _, _ => none
  | fuel + 1, lineAbs, cells, pos =>
    if pos ≥ cells.length then
      let lineAbs' := lineAbs + 1
      if lineAbs' ≥ (total : Int) then none
      else wordFwdELoop iW w cc cols total fuel lineAbs' (lineCells iW w lineAbs' cols) 0
    else
      let pos := skipClass cc cells 0 (cells.length + 1) pos
      if pos ≥ cells.length then wordFwdELoop iW w cc cols total fuel lineAbs cells pos
      else
        let cls := cc (cells.getD pos (' ', 0)).1
        some (lineAbs, cells, skipGroupEnd cc cells cls (cells.length + 1) pos)

/- The while-loop of _word_move_backward. -/
def wordBackLoop (iW : Char → Bool) (w : World) (cc : Char → Nat) (cols : Nat) :
    Nat → Int → List (Char × Nat) → Int → Option (Int × List (Char × Nat) × Int)
  | 0, _, _, _ => none
  | fuel + 1, lineAbs, cells, pos =>
    if pos < 0 then
      let lineAbs' := lineAbs - 1
      if lineAbs' < 0 then none
      else
        let cells' := lineCells iW w lineAbs' cols
        wordBackLoop iW w cc cols fuel lineAbs' cells' ((cells'.length : Int) - 1)
    else
      let pos := skipBackSpaces cc cells (cells.length + 1) pos
      if pos < 0 then wordBackLoop iW w cc cols fuel lineAbs cells pos
      else
        let cls := cc (cells.getD pos.toNat (' ', 0)).1
        some (lineAbs, cells, skipBackGroup cc cells cls (cells.length + 1) pos)

/- _word_move_forward(to_end). -/
def wordMoveForward (iW : Char → Bool) (w : World) (toEnd : Bool) : World :=
  if ¬ w.windowSet then w
  else
    let total := totalLines w
    let cols := w.screen.columns
    let lineAbs := w.cursorAbs
    let cells := lineCells iW w lineAbs cols
    let pos := (findCellPos cells w.cursorX).getD cells.length
    let res :=
      if toEnd then
        wordFwdELoop iW w (charClass w) cols total (2 * total + 4) lineAbs cells (pos + 1)
      else
        wordFwdWLoop iW w (charClass w) cols total (2 * total + 4) lineAbs cells pos
    match res with
    | some r =>
      if r.2.2 < r.2.1.length then
        moveCursorTo iW w r.1 ((r.2.1.getD r.2.2 (' ', 0)).2 : Int)
      else w
    | none => w

/- _word_move_backward. -/
def wordMoveBackward (iW : Char → Bool) (w : World) : World :=
  if ¬ w.windowSet then w
  else
    let cols := w.screen.columns
    let lineAbs := w.cursorAbs
    let cells := lineCells iW w lineAbs cols
    let pos : Int :=
      match findCellPos cells w.cursorX with
      | some i => i
      | none => if cells.isEmpty then 0 else (cells.length : Int) - 1
    let res := wordBackLoop iW w (charClass w) cols
      (2 * (w.cursorAbs.toNat + 2)) lineAbs cells (pos - 1)
    match res with
    | some r =>
      if 0 ≤ r.2.2 ∧ r.2.2 < (r.2.1.length : Int) then
        moveCursorTo iW w r.1 ((r.2.1.getD r.2.2.toNat (' ', 0)).2 : Int)
      else w
    | none => w

/- _start_selection(mode): anchor a visual selection at the cursor (x forced
to 0 for line mode) and switch to SELECT. -/
def startSelection (iW : Char → Bool) (w : World) (mode : SelMode) : World :=
  let w := { w with
    selStartAbs := w.cursorAbs,
    selStartX := if mode = SelMode.line then 0 else w.cursorX,
    selMode := some mode,
    smstate := ScrollModeState.SELECT }
  markDirty (syncCursor iW w)

def joinNL (parts : List (List Char)) : List Char := List.intercalate ['\n'] parts

/- _get_selected_text: extract the text of the current selection; soft-wrap
continuations are joined to the previous part without a newline. -/
def getSelectedText (iW : Char → Bool) (w : World) : List Char :=
  match w.selMode with
  | none => []
  | some mode =>
    let se :=
      if w.selStartAbs ≤ w.cursorAbs then (w.selStartAbs, w.cursorAbs)
      else (w.cursorAbs, w.selStartAbs)
    if mode = SelMode.block then
      let xLeft := min w.selStartX w.cursorX
      let xRight := max w.selStartX w.cursorX
      joinNL ((intRange se.1 (se.2 + 1)).map (fun i =>
        let line := getLineText w i
        rstrip (pySlice line (cellToCharIdx iW line xLeft)
          (cellToCharIdx iW line (xRight + 1)))))
    else
      let xs :=
        if w.selStartAbs < w.cursorAbs ∨
            (w.selStartAbs = w.cursorAbs ∧ w.selStartX ≤ w.cursorX) then
          (w.selStartX, w.cursorX)
        else (w.cursorX, w.selStartX)
      let parts := (intRange se.1 (se.2 + 1)).foldl
        (fun (parts : List (List Char)) i =>
          let line := getLineText w i
          let line :=
            if mode = SelMode.char then
              if i = se.1 ∧ i = se.2 then
                pySlice line (cellToCharIdx iW line xs.1) (cellToCharIdx iW line (xs.2 + 1))
              else if i = se.1 then line.drop (cellToCharIdx iW line xs.1)
              else if i = se.2 then line.take (cellToCharIdx iW line (xs.2 + 1))
              else line
            else line
          let line := rstrip line
          if ¬ parts.isEmpty ∧ isLineContinued w i then
            parts.dropLast ++ [parts.getLastD [] ++ line]
          else parts ++ [line]) []
      joinNL parts

/- _yank_selection(stay): copy a nonempty selection text to the clipboard;
without stay, exit the mode; with stay, drop the selection and return to
NAVIGATE. -/
def yankSelection (iW : Char → Bool) (w : World) (stay : Bool) : World :=
  let text := getSelectedText iW w
  let w := if ¬ text.isEmpty then { w with clipboard := text } else w
  if stay then
    let w := { w with selMode := none, smstate := ScrollModeState.NAVIGATE }
    let w :=
      if w.windowSet then
        { w with screen := { w.screen with renderSelection := (0, 0, 0, 0, 0) } }
      else w
    markDirty (syncCursor iW w)
  else exitMode w

/- Python str.isprintable for the single characters fed to the search query
(control characters are not printable). -/
def pyPrintable (c : Char) : Bool := 32 ≤ c.toNat && c.toNat ≠ 127

/- _handle_movement: movement keys shared by NAVIGATE and SELECT; unknown keys
are swallowed (consumed without mutation). -/
def handleMovement (iW : Char → Bool) (w : World) (ev : KeyEvent) : World × Bool :=
  let key := ev.key
  let mods := ev.mods
  let numLines := w.screen.lines
  if (key = ord 'j' ∧ mods = 0) ∨ key = GLFW_FKEY_DOWN then (moveCursor iW w 1 0, true)
  else if (key = ord 'k' ∧ mods = 0) ∨ key = GLFW_FKEY_UP then (moveCursor iW w (-1) 0, true)
  else if (key = ord 'h' ∧ mods = 0) ∨ key = GLFW_FKEY_LEFT then (moveCursor iW w 0 (-1), true)
  else if (key = ord 'l' ∧ mods = 0) ∨ key = GLFW_FKEY_RIGHT then (moveCursor iW w 0 1, true)
  else if key = ord 'd' ∧ (mods = 0 ∨ mods = GLFW_MOD_CONTROL) then
    (moveCursor iW w (max 1 (numLines / 2) : Nat) 0, true)
  else if key = ord 'u' ∧ (mods = 0 ∨ mods = GLFW_MOD_CONTROL) then
    (moveCursor iW w (-(max 1 (numLines / 2) : Nat) : Int) 0, true)
  else if (key = ord 'f' ∧ mods = GLFW_MOD_CONTROL) ∨ key = GLFW_FKEY_PAGE_DOWN then
    (moveCursor iW w (numLines : Nat) 0, true)
  else if (key = ord 'b' ∧ mods = GLFW_MOD_CONTROL) ∨ key = GLFW_FKEY_PAGE_UP then
    (moveCursor iW w (-(numLines : Int)) 0, true)
  else if key = ord 'g' ∧ mods = 0 then (moveCursorTo iW w 0 0, true)
  else if key = ord 'g' ∧ mods = GLFW_MOD_SHIFT then
    (moveCursorTo iW w ((totalLines w : Int) - 1) 0, true)
  else if key = ord '0' ∧ mods = 0 then
    (markDirty (syncCursor iW { w with cursorX := 0 }), true)
  else if ev.text = ['$'] then
    (markDirty (syncCursor iW { w with cursorX := (w.screen.columns : Int) - 1 }), true)
  else if key = ord 'w' ∧ mods = 0 then (wordMoveForward iW w false, true)
  else if key = ord 'e' ∧ mods = 0 then (wordMoveForward iW w true, true)
  else if key = ord 'b' ∧ mods = 0 then (wordMoveBackward iW w, true)
  else (w, true)

/- _handle_navigate. -/
def handleNavigate (iW : Char → Bool) (w : World) (ev : KeyEvent) : World × Bool :=
  let key := ev.key
  let mods := ev.mods
  if (key = ord 'q' ∧ mods = 0) ∨ (key = GLFW_FKEY_ESCAPE ∧ mods = 0) then
    (exitMode w, true)
  else if (key = ord '/' ∧ mods = 0) ∨ (key = ord 's' ∧ mods = GLFW_MOD_ALT) then
    (markDirty { w with searchBackwards := true, searchQuery := [],
                        smstate := ScrollModeState.SEARCH }, true)
  else if (key = ord '/' ∧ mods = GLFW_MOD_SHIFT) ∨ ev.text = ['?'] then
    (markDirty { w with searchBackwards := false, searchQuery := [],
                        smstate := ScrollModeState.SEARCH }, true)
  else if key = ord 'n' ∧ mods = 0 then
    (if ¬ w.searchQuery.isEmpty then jumpToMatch iW w w.searchBackwards else w, true)
  else if key = ord 'n' ∧ mods = GLFW_MOD_SHIFT then
    (if ¬ w.searchQuery.isEmpty then jumpToMatch iW w (!w.searchBackwards) else w, true)
  else if key = ord 'u' ∧ mods = GLFW_MOD_ALT then (jumpToPrompt iW w true, true)
  else if key = ord 'n' ∧ mods = GLFW_MOD_ALT then (jumpToPrompt iW w false, true)
  else if key = ord 'v' ∧ mods = 0 then (startSelection iW w SelMode.char, true)
  else if key = ord 'v' ∧ mods = GLFW_MOD_SHIFT then (startSelection iW w SelMode.line, true)
  else if key = ord 'v' ∧ mods = GLFW_MOD_CONTROL then (startSelection iW w SelMode.block, true)
  else handleMovement iW w ev

/- _handle_search: incremental search editing. -/
def handleSearch (iW : Char → Bool) (w : World) (ev : KeyEvent) : World × Bool :=
  let key := ev.key
  let mods := ev.mods
  if key = GLFW_FKEY_ESCAPE ∧ mods = 0 then
    let w1 := clearSearchMarker w
    (markDirty { w1 with searchQuery := [], smstate := ScrollModeState.NAVIGATE }, true)
  else if (key = GLFW_FKEY_ENTER ∨ key = GLFW_FKEY_KP_ENTER) ∧ mods = 0 then
    (markDirty { w with smstate := ScrollModeState.NAVIGATE }, true)
  else if key = GLFW_FKEY_BACKSPACE ∧ mods = 0 then
    let w :=
      if ¬ w.searchQuery.isEmpty then
        let w := { w with searchQuery := w.searchQuery.dropLast }
        if ¬ w.searchQuery.isEmpty then applySearchMarker w else clearSearchMarker w
      else w
    (markDirty w, true)
  else if key = ord 'u' ∧ mods = GLFW_MOD_CONTROL then
    (markDirty (clearSearchMarker { w with searchQuery := [] }), true)
  else if (mods = 0 ∨ mods = GLFW_MOD_SHIFT) ∧ ev.text.length = 1 ∧
      pyPrintable (ev.text.headD ' ') then
    let w := { w with searchQuery := w.searchQuery ++ ev.text }
    (markDirty (jumpToNearestMatch iW (applySearchMarker w)), true)
  else (w, true)

/- _handle_select: visual-selection key handling. -/
def handleSelect (iW : Char → Bool) (w : World) (ev : KeyEvent) : World × Bool :=
  let key := ev.key
  let mods := ev.mods
  if key = GLFW_FKEY_ESCAPE ∧ mods = 0 then (yankSelection iW w false, true)
  else if key = ord 'q' ∧ mods = 0 then (exitMode w, true)
  else if key = ord 'y' ∧ mods = 0 then (yankSelection iW w false, true)
  else if key = ord 'y' ∧ mods = GLFW_MOD_SHIFT then (yankSelection iW w true, true)
  else if key = ord 'o' ∧ mods = 0 then
    let w := { w with
      selStartAbs := w.cursorAbs, cursorAbs := w.selStartAbs,
      selStartX := w.cursorX, cursorX := w.selStartX }
    (markDirty (syncCursor iW (ensureCursorVisible w)), true)
  else if key = ord 'v' ∧ mods = 0 then
    let w :=
      if w.selMode = some SelMode.char then
        { w with selMode := none, smstate := ScrollModeState.NAVIGATE }
      else { w with selMode := some SelMode.char }
    (markDirty (syncCursor iW w), true)
  else if key = ord 'v' ∧ mods = GLFW_MOD_SHIFT then
    let w :=
      if w.selMode = some SelMode.line then
        { w with selMode := some (w.selPrevMode.getD SelMode.char) }
      else { w with selPrevMode := w.selMode, selMode := some SelMode.line }
    (markDirty (syncCursor iW w), true)
  else if key = ord 'v' ∧ mods = GLFW_MOD_CONTROL then
    let w :=
      if w.selMode = some SelMode.block then
        { w with selMode := some (w.selPrevMode.getD SelMode.char) }
      else { w with selPrevMode := w.selMode, selMode := some SelMode.block }
    (markDirty (syncCursor iW w), true)
  else if key = ord 'n' ∧ mods = 0 then
    (if ¬ w.searchQuery.isEmpty then jumpToMatch iW w w.searchBackwards else w, true)
  else if key = ord 'n' ∧ mods = GLFW_MOD_SHIFT then
    (if ¬ w.searchQuery.isEmpty then jumpToMatch iW w (!w.searchBackwards) else w, true)
  else if (key = ord '/' ∧ mods = 0) ∨ (key = ord 's' ∧ mods = GLFW_MOD_ALT) then
    let w := { w with selMode := none, searchBackwards := true, searchQuery := [],
                      smstate := ScrollModeState.SEARCH }
    (markDirty (syncCursor iW w), true)
  else if (key = ord '/' ∧ mods = GLFW_MOD_SHIFT) ∨ ev.text = ['?'] then
    let w := { w with selMode := none, searchBackwards := false, searchQuery := [],
                      smstate := ScrollModeState.SEARCH }
    (markDirty (syncCursor iW w), true)
  else handleMovement iW w ev

/- handle_key: dispatch by state machine state; non-press/repeat phases are
consumed without mutation, and nothing is handled without a window. -/
def handleKey (iW : Char → Bool) (w : World) (ev : KeyEvent) : World × Bool :=
  if ¬ (ev.action = GLFW_PRESS ∨ ev.action = GLFW_REPEAT) then (w, true)
  else if ¬ w.windowSet then (w, false)
  else
    match w.smstate with
    | ScrollModeState.NAVIGATE => handleNavigate iW w ev
    | ScrollModeState.SEARCH => handleSearch iW w ev
    | ScrollModeState.SELECT => handleSelect iW w ev

/- A screen with no prior scrolling, no soft wraps and empty render state,
used to build concrete witness states. -/
def mkScreen (hist live : List (List Char)) (cols cx cy : Nat) (mainBuf : Bool) :
    Screen :=
  { history := hist, live := live,
    histCont := List.replicate hist.length false,
    liveCont := List.replicate live.length false,
    columns := cols, scrolledBy := 0, cursorX := cx, cursorY := cy,
    mainLinebuf := mainBuf, scrollPaused := false, flushed := false,
    marker := none, renderCursor := (0, 0, 0, 1),
    renderSelection := (0, 0, 0, 0, 0) }

/- The mode as constructed by ScrollMode.__init__ (inactive, all fields at
their initial values), holding a window-world with the given screen. -/
def initWorld (scr : Screen) : World :=
  { active := false, smstate := ScrollModeState.NAVIGATE, windowSet := false,
    isAlt := false, cursorAbs := 0, cursorX := 0, searchQuery := [],
    searchBackwards := true, selStartAbs := 0, selStartX := 0, selMode := none,
    selPrevMode := none, dragActive := false, dragStarted := false,
    dragPressY := 0, dragPressX := 0, tmSet := false, screen := scr,
    clipboard := [], tabBarOk := true, tabBarDirty := false, wordChars := [] }

/- Wideness classification used by concrete witnesses: あ (U+3042) is the only
wide character they contain. -/
def wideAh (c : Char) : Bool := c = 'あ'

/- Specification-side form of _find_all_matches, following the spec's words:
case-fold both sides, and per line enumerate every occurrence position of the
folded query in the folded line.  Compared against findAllMatches (the
embedding of the source's find loop) in the C1 theorem. -/
def findAllSpec (w : World) : List (Nat × Nat) :=
  if ¬ w.windowSet ∨ w.searchQuery = [] then []
  else
    (rangeFrom 0 (totalLines w)).foldl
      (fun (acc : List (Nat × Nat)) (a : Nat) =>
        acc ++ (occurrences (lowerStr w.searchQuery) (lowLine w a)).map (fun c => (a, c))) []

/- Does the case-folded query occur in line a at column c? -/
def matchAtB (w : World) (a : Int) (c : Nat) : Bool :=
  (lowerStr w.searchQuery).isPrefixOf ((lowLine w a).drop c)

/- Concrete scenario for C2: main buffer, two columns, a single live line
holding the wide character あ, terminal cursor at (0, 0). -/
def scrC2 : Screen := mkScreen [] [['あ']] 2 0 0 true

def wC2a : World := enter wideAh (initWorld scrC2)

/- The key event produced by typing $ (shift+4). -/
def evDollar : KeyEvent :=
  { key := 52, mods := GLFW_MOD_SHIFT, text := ['$'], action := GLFW_PRESS }

def wC2b : World := (handleKey wideAh wC2a evDollar).1

/- Concrete scenario for C3: enter, press V twice. -/
def scrC3 : Screen := mkScreen [] [['a', 'b'], ['c', 'd']] 4 0 0 true

def evShiftV : KeyEvent :=
  { key := ord 'v', mods := GLFW_MOD_SHIFT, text := ['V'], action := GLFW_PRESS }

def evv : KeyEvent := { key := ord 'v', mods := 0, text := ['v'], action := GLFW_PRESS }

def evCtrlV : KeyEvent :=
  { key := ord 'v', mods := GLFW_MOD_CONTROL, text := [], action := GLFW_PRESS }

def evRight : KeyEvent :=
  { key := GLFW_FKEY_RIGHT, mods := 0, text := [], action := GLFW_PRESS }

/- The parts of the state that line reading, match enumeration and the jump
loops depend on; every cursor-moving operation leaves them unchanged. -/
def stableEq (w w' : World) : Prop :=
  w'.windowSet = w.windowSet ∧ w'.isAlt = w.isAlt ∧
  w'.searchQuery = w.searchQuery ∧
  w'.screen.history = w.screen.history ∧ w'.screen.live = w.screen.live ∧
  w'.screen.columns = w.screen.columns

def wC3a : World := (handleKey wideAh (enter wideAh (initWorld scrC3)) evShiftV).1

def wC3b : World := (handleKey wideAh wC3a evShiftV).1

/- Concrete scenario for C1: line あab, query "ab". -/
def scrC1 : Screen := mkScreen [] [['あ', 'a', 'b']] 8 0 0 true

def wC1 : World :=
  { initWorld scrC1 with windowSet := true, active := true, searchQuery := ['a', 'b'] }

/- Concrete scenario for C5: line あi, cursor at cell 0, press l. -/
def scrC5 : Screen := mkScreen [] [['あ', 'i']] 4 0 0 true

def wC5a : World := enter wideAh (initWorld scrC5)

def evl : KeyEvent := { key := ord 'l', mods := 0, text := ['l'], action := GLFW_PRESS }

/- Concrete scenario for C6: char selection of cells 1..3 of the line "ab cd". -/
def scrC6 : Screen := mkScreen [] [['a', 'b', ' ', 'c', 'd']] 8 0 0 true

def wC6 : World :=
  { initWorld scrC6 with
    windowSet := true
    active := true
    smstate := ScrollModeState.SELECT
    selMode := some SelMode.char
    selStartAbs := 0
    selStartX := 1
    cursorAbs := 0
    cursorX := 3 }

/- Concrete scenario for C7 (witness): one line "ab cd ab", query "ab", cursor
on the match at column 0. -/
def scrC7 : Screen := mkScreen [] [['a', 'b', ' ', 'c', 'd', ' ', 'a', 'b'], []] 10 0 0 true

def wC7 : World :=
  { initWorld scrC7 with
    windowSet := true
    active := true
    searchQuery := ['a', 'b']
    cursorAbs := 0
    cursorX := 0 }

/- Concrete scenario for C7 (counterexample): matches at (0,0) and (2,0),
cursor between them at (1,0), not on a match. -/
def scrC7c : Screen := mkScreen [] [['a', 'b'], ['x'], ['a', 'b']] 4 0 0 true

def wC7c : World :=
  { initWorld scrC7c with
    windowSet := true
    active := true
    searchQuery := ['a', 'b']
    cursorAbs := 1
    cursorX := 0 }

/- Concrete scenario for C8 (witness): an alternate-screen window, and a main
window whose only history line ends in "$ " (a prompt). -/
def scrC8alt : Screen := mkScreen [] [['x']] 4 0 0 false

def wC8alt : World := initWorld scrC8alt

def scrC8main : Screen := mkScreen [['u', ' ', '$', ' ']] [['x'], ['y']] 8 0 1 true

def wC8main : World := initWorld scrC8main

/- Concrete scenario for C10: char selection covering only the trailing
whitespace of "ab   "; the clipboard initially holds "z". -/
def scrC10 : Screen := mkScreen [] [['a', 'b', ' ', ' ', ' ']] 8 0 0 true

def wC10 : World :=
  { initWorld scrC10 with
    windowSet := true
    active := true
    smstate := ScrollModeState.SELECT
    selMode := some SelMode.char
    selStartAbs := 0
    selStartX := 2
    cursorAbs := 0
    cursorX := 4
    clipboard := ['z'] }

/- Lemmas about the loop scaffolding: find?, filter and membership over the
range lists that embed the Python loops. -/

theorem rangeFrom_find?_eq_some {p : Nat → Bool} :
    ∀ {n s c : Nat}, (rangeFrom s n).find? p = some c ↔
      s ≤ c ∧ c < s + n ∧ p c = true ∧ ∀ j, s ≤ j → j < c → p j = false := by
  intro n
  induction n with
  | zero =>
    intro s c
    simp only [rangeFrom, List.find?]
    constructor
    · intro h; cases h
    · rintro ⟨h1, h2, _⟩; omega
  | succ m ih =>
    intro s c
    rw [rangeFrom]
    by_cases hp : p s
    · rw [List.find?_cons_of_pos _ hp]
      constructor
      · rintro ⟨rfl⟩
        exact ⟨le_refl _, by omega, hp, fun j h1 h2 => absurd h1 (by omega)⟩
      · rintro ⟨h1, _, h3, h4⟩
        rcases Nat.lt_or_ge s c with hlt | hge
        · exact absurd (h4 s (le_refl _) hlt) (by simp [hp])
        · have : c = s := by omega
          simp [this]
    · rw [List.find?_cons_of_neg _ hp]
      rw [ih]
      constructor
      · rintro ⟨h1, h2, h3, h4⟩
        refine ⟨by omega, by omega, h3, fun j hj1 hj2 => ?_⟩
        rcases Nat.eq_or_lt_of_le hj1 with rfl | hlt
        · simpa using hp
        · exact h4 j hlt hj2
      · rintro ⟨h1, h2, h3, h4⟩
        have hcs : s ≠ c := by
          rintro rfl; simp [h3] at hp
        refine ⟨by omega, by omega, h3, fun j hj1 hj2 => h4 j (by omega) hj2⟩

theorem rangeFrom_find?_eq_none {p : Nat → Bool} :
    ∀ {n s : Nat}, (rangeFrom s n).find? p = none ↔
      ∀ j, s ≤ j → j < s + n → p j = false := by
  intro n
  induction n with
  | zero => intro s; simp [rangeFrom]; omega
  | succ m ih =>
    intro s
    rw [rangeFrom]
    simp only [List.find?_cons]
    by_cases hp : p s
    · simp only [hp]
      constructor
      · intro h; cases h
      · intro h; exact absurd (h s (le_refl _) (by omega)) (by simp [hp])
    · simp only [Bool.not_eq_true] at hp
      simp only [hp, ih]
      constructor
      · intro h j hj1 hj2
        rcases Nat.eq_or_lt_of_le hj1 with rfl | hlt
        · exact hp
        · exact h j hlt (by omega)
      · intro h j hj1 hj2
        exact h j (by omega) (by omega)

theorem rangeDown_find?_eq_some {p : Nat → Bool} :
    ∀ {e c : Nat}, (rangeDown e).find? p = some c ↔
      c ≤ e ∧ p c = true ∧ ∀ j, c < j → j ≤ e → p j = false := by
  intro e
  induction e with
  | zero =>
    intro c
    simp only [rangeDown, List.find?]
    by_cases hp : p 0
    · simp only [hp]
      constructor
      · rintro ⟨rfl⟩; exact ⟨le_refl _, hp, by omega⟩
      · rintro ⟨h1, h2, _⟩; have : c = 0 := by omega
        simp [this]
    · simp only [Bool.not_eq_true] at hp
      simp only [hp]
      constructor
      · intro h; cases h
      · rintro ⟨h1, h2, _⟩
        have : c = 0 := by omega
        rw [this] at h2; rw [h2] at hp; cases hp
  | succ m ih =>
    intro c
    rw [rangeDown]
    by_cases hp : p (m + 1)
    · rw [List.find?_cons_of_pos _ hp]
      constructor
      · rintro ⟨rfl⟩; exact ⟨le_refl _, hp, by omega⟩
      · rintro ⟨h1, h2, h3⟩
        rcases Nat.lt_or_ge c (m + 1) with hlt | hge
        · exact absurd (h3 (m + 1) hlt (le_refl _)) (by simp [hp])
        · have : c = m + 1 := by omega
          simp [this]
    · rw [List.find?_cons_of_neg _ hp]
      rw [ih]
      constructor
      · rintro ⟨h1, h2, h3⟩
        refine ⟨by omega, h2, fun j hj1 hj2 => ?_⟩
        rcases Nat.eq_or_lt_of_le hj2 with rfl | hlt
        · simpa using hp
        · exact h3 j hj1 (by omega)
      · rintro ⟨h1, h2, h3⟩
        have hc : c ≠ m + 1 := by
          rintro rfl; simp [h2] at hp
        exact ⟨by omega, h2, fun j hj1 hj2 => h3 j hj1 (by omega)⟩

theorem rangeDown_find?_eq_none {p : Nat → Bool} :
    ∀ {e : Nat}, (rangeDown e).find? p = none ↔ ∀ j, j ≤ e → p j = false := by
  intro e
  induction e with
  | zero =>
    simp only [rangeDown, List.find?]
    by_cases hp : p 0
    · simp only [hp]
      constructor
      · intro h; cases h
      · intro h; exact absurd (h 0 (le_refl _)) (by simp [hp])
    · simp only [Bool.not_eq_true] at hp
      simp only [hp]
      constructor
      · intro _ j hj
        have : j = 0 := by omega
        rw [this]; exact hp
      · intro _; trivial
  | succ m ih =>
    rw [rangeDown]
    simp only [List.find?_cons]
    by_cases hp : p (m + 1)
    · simp only [hp]
      constructor
      · intro h; cases h
      · intro h; exact absurd (h (m + 1) (le_refl _)) (by simp [hp])
    · simp only [Bool.not_eq_true] at hp
      simp only [hp, ih]
      constructor
      · intro h j hj
        rcases Nat.eq_or_lt_of_le hj with rfl | hlt
        · exact hp
        · exact h j (by omega)
      · intro h j hj
        exact h j (by omega)

theorem rangeFrom_filter_split {p : Nat → Bool} :
    ∀ {n s c : Nat}, s ≤ c → c < s + n → p c = true →
      (∀ j, s ≤ j → j < c → p j = false) →
      (rangeFrom s n).filter p = c :: (rangeFrom (c + 1) (s + n - (c + 1))).filter p := by
  intro n
  induction n with
  | zero => intro s c h1 h2; omega
  | succ m ih =>
    intro s c h1 h2 h3 h4
    rw [rangeFrom]
    rcases Nat.eq_or_lt_of_le h1 with rfl | hlt
    · rw [List.filter_cons_of_pos h3]
      have : s + (m + 1) - (s + 1) = m := by omega
      rw [this]
    · have hps : p s = false := h4 s (le_refl _) hlt
      rw [List.filter_cons_of_neg (by simp [hps])]
      have := ih (s := s + 1) (c := c) (by omega) (by omega) h3
        (fun j hj1 hj2 => h4 j (by omega) hj2)
      rw [this]
      have : s + 1 + m - (c + 1) = s + (m + 1) - (c + 1) := by omega
      rw [this]

theorem rangeFrom_filter_eq_nil {p : Nat → Bool} :
    ∀ {n s : Nat}, (∀ j, s ≤ j → j < s + n → p j = false) →
      (rangeFrom s n).filter p = [] := by
  intro n
  induction n with
  | zero => intro s _; rfl
  | succ m ih =>
    intro s h
    rw [rangeFrom, List.filter_cons_of_neg (by simp [h s (le_refl _) (by omega)])]
    exact ih fun j hj1 hj2 => h j (by omega) (by omega)

theorem mem_rangeFrom : ∀ {n s j : Nat}, j ∈ rangeFrom s n ↔ s ≤ j ∧ j < s + n := by
  intro n
  induction n with
  | zero => intro s j; simp [rangeFrom]
  | succ m ih =>
    intro s j
    rw [rangeFrom]
    simp only [List.mem_cons, ih]
    omega

theorem scanLines_intRangeAux_eq_some {f : Int → Option Nat} :
    ∀ {n : Nat} {a x : Int} {c : Nat},
      scanLines f (intRangeAux a n) = some (x, c) ↔
        a ≤ x ∧ x < a + n ∧ f x = some c ∧ ∀ j : Int, a ≤ j → j < x → f j = none := by
  intro n
  induction n with
  | zero =>
    intro a x c
    simp only [intRangeAux, scanLines]
    constructor
    · intro h; cases h
    · rintro ⟨h1, h2, _⟩; omega
  | succ m ih =>
    intro a x c
    rw [intRangeAux]
    rcases hfa : f a with _ | c0
    · simp only [scanLines, hfa, ih]
      constructor
      · rintro ⟨h1, h2, h3, h4⟩
        refine ⟨by omega, by omega, h3, fun j hj1 hj2 => ?_⟩
        rcases eq_or_lt_of_le hj1 with rfl | hlt
        · exact hfa
        · exact h4 j (by omega) hj2
      · rintro ⟨h1, h2, h3, h4⟩
        have hax : a ≠ x := by
          rintro rfl; rw [h3] at hfa; cases hfa
        exact ⟨by omega, by omega, h3, fun j hj1 hj2 => h4 j (by omega) hj2⟩
    · simp only [scanLines, hfa]
      constructor
      · rintro ⟨rfl, rfl⟩
        exact ⟨le_refl _, by omega, hfa, fun j hj1 hj2 => by omega⟩
      · rintro ⟨h1, h2, h3, h4⟩
        rcases lt_or_le a x with hlt | hge
        · rw [h4 a (le_refl _) hlt] at hfa; cases hfa
        · have : x = a := by omega
          subst this
          rw [h3] at hfa
          cases hfa
          rfl

theorem scanLines_intRangeAux_eq_none {f : Int → Option Nat} :
    ∀ {n : Nat} {a : Int},
      scanLines f (intRangeAux a n) = none ↔
        ∀ j : Int, a ≤ j → j < a + n → f j = none := by
  intro n
  induction n with
  | zero =>
    intro a
    simp only [intRangeAux, scanLines, true_iff]
    intro j h1 h2; omega
  | succ m ih =>
    intro a
    rw [intRangeAux]
    rcases hfa : f a with _ | c0
    · simp only [scanLines, hfa, ih]
      constructor
      · intro h j hj1 hj2
        rcases eq_or_lt_of_le hj1 with rfl | hlt
        · exact hfa
        · exact h j (by omega) (by omega)
      · intro h j hj1 hj2
        exact h j (by omega) (by omega)
    · simp only [scanLines, hfa]
      constructor
      · intro h; cases h
      · intro h
        rw [h a (le_refl _) (by omega)] at hfa
        cases hfa

theorem scanLines_intRangeDescAux_eq_some {f : Int → Option Nat} :
    ∀ {n : Nat} {a x : Int} {c : Nat},
      scanLines f (intRangeDescAux a n) = some (x, c) ↔
        a - n < x ∧ x ≤ a ∧ f x = some c ∧ ∀ j : Int, x < j → j ≤ a → f j = none := by
  intro n
  induction n with
  | zero =>
    intro a x c
    simp only [intRangeDescAux, scanLines]
    constructor
    · intro h; cases h
    · rintro ⟨h1, h2, _⟩; omega
  | succ m ih =>
    intro a x c
    rw [intRangeDescAux]
    rcases hfa : f a with _ | c0
    · simp only [scanLines, hfa, ih]
      constructor
      · rintro ⟨h1, h2, h3, h4⟩
        refine ⟨by omega, by omega, h3, fun j hj1 hj2 => ?_⟩
        rcases eq_or_lt_of_le hj2 with rfl | hlt
        · exact hfa
        · exact h4 j hj1 (by omega)
      · rintro ⟨h1, h2, h3, h4⟩
        have hax : x ≠ a := by
          rintro rfl; rw [h3] at hfa; cases hfa
        exact ⟨by omega, by omega, h3, fun j hj1 hj2 => h4 j hj1 (by omega)⟩
    · simp only [scanLines, hfa]
      constructor
      · rintro ⟨rfl, rfl⟩
        exact ⟨by omega, le_refl _, hfa, fun j hj1 hj2 => by omega⟩
      · rintro ⟨h1, h2, h3, h4⟩
        rcases lt_or_le x a with hlt | hge
        · rw [h4 a hlt (le_refl _)] at hfa; cases hfa
        · have : x = a := by omega
          subst this
          rw [h3] at hfa
          cases hfa
          rfl

theorem scanLines_intRangeDescAux_eq_none {f : Int → Option Nat} :
    ∀ {n : Nat} {a : Int},
      scanLines f (intRangeDescAux a n) = none ↔
        ∀ j : Int, a - n < j → j ≤ a → f j = none := by
  intro n
  induction n with
  | zero =>
    intro a
    simp only [intRangeDescAux, scanLines, true_iff]
    intro j h1 h2; omega
  | succ m ih =>
    intro a
    rw [intRangeDescAux]
    rcases hfa : f a with _ | c0
    · simp only [scanLines, hfa, ih]
      constructor
      · intro h j hj1 hj2
        rcases eq_or_lt_of_le hj2 with rfl | hlt
        · exact hfa
        · exact h j (by omega) (by omega)
      · intro h j hj1 hj2
        exact h j (by omega) (by omega)
    · simp only [scanLines, hfa]
      constructor
      · intro h; cases h
      · intro h
        rw [h a (by omega) (le_refl _)] at hfa
        cases hfa

theorem intRangeDescAux_find?_eq_some {p : Int → Bool} :
    ∀ {n : Nat} {a x : Int},
      (intRangeDescAux a n).find? p = some x ↔
        a - n < x ∧ x ≤ a ∧ p x = true ∧ ∀ j : Int, x < j → j ≤ a → p j = false := by
  intro n
  induction n with
  | zero =>
    intro a x
    simp only [intRangeDescAux, List.find?]
    constructor
    · intro h; cases h
    · rintro ⟨h1, h2, _⟩; omega
  | succ m ih =>
    intro a x
    rw [intRangeDescAux]
    by_cases hp : p a
    · rw [List.find?_cons_of_pos _ hp]
      constructor
      · rintro ⟨rfl⟩
        exact ⟨by omega, le_refl _, hp, fun j hj1 hj2 => by omega⟩
      · rintro ⟨h1, h2, h3, h4⟩
        rcases lt_or_le x a with hlt | hge
        · exact absurd (h4 a hlt (le_refl _)) (by simp [hp])
        · have : x = a := by omega
          simp [this]
    · rw [List.find?_cons_of_neg _ hp]
      rw [ih]
      constructor
      · rintro ⟨h1, h2, h3, h4⟩
        refine ⟨by omega, by omega, h3, fun j hj1 hj2 => ?_⟩
        rcases eq_or_lt_of_le hj2 with rfl | hlt
        · simpa using hp
        · exact h4 j hj1 (by omega)
      · rintro ⟨h1, h2, h3, h4⟩
        have hxa : x ≠ a := by
          rintro rfl; simp [h3] at hp
        exact ⟨by omega, by omega, h3, fun j hj1 hj2 => h4 j hj1 (by omega)⟩

theorem intRangeDescAux_find?_eq_none {p : Int → Bool} :
    ∀ {n : Nat} {a : Int},
      (intRangeDescAux a n).find? p = none ↔
        ∀ j : Int, a - n < j → j ≤ a → p j = false := by
  intro n
  induction n with
  | zero =>
    intro a
    simp only [intRangeDescAux, List.find?]
    constructor
    · intro _ j h1 h2; omega
    · intro _; trivial
  | succ m ih =>
    intro a
    rw [intRangeDescAux]
    simp only [List.find?_cons]
    by_cases hp : p a
    · simp only [hp]
      constructor
      · intro h; cases h
      · intro h; exact absurd (h a (by omega) (le_refl _)) (by simp [hp])
    · simp only [Bool.not_eq_true] at hp
      simp only [hp, ih]
      constructor
      · intro h j hj1 hj2
        rcases eq_or_lt_of_le hj2 with rfl | hlt
        · exact hp
        · exact h j (by omega) (by omega)
      · intro h j hj1 hj2
        exact h j (by omega) (by omega)

/- Width and cell-index arithmetic. -/

theorem charWidth_pos (iW : Char → Bool) (ch : Char) : 1 ≤ charWidth iW ch := by
  unfold charWidth; split <;> omega

theorem listWidth_nil (iW : Char → Bool) : listWidth iW [] = 0 := rfl

theorem listWidth_cons (iW : Char → Bool) (ch : Char) (l : List Char) :
    listWidth iW (ch :: l) = charWidth iW ch + listWidth iW l := rfl

theorem cellToCharIdxAux_eq (iW : Char → Bool) (x : Int) :
    ∀ (l : List Char) (cell : Int) (idx : Nat),
      cellToCharIdxAux iW x l cell idx = idx + c2cSimple iW l (x - cell) := by
  intro l
  induction l with
  | nil => intro cell idx; simp [cellToCharIdxAux, c2cSimple]
  | cons ch rest ih =>
    intro cell idx
    simp only [cellToCharIdxAux, c2cSimple]
    by_cases h : x ≤ cell
    · rw [if_pos h, if_pos (by omega)]
      omega
    · rw [if_neg h, if_neg (by omega), ih]
      have harg : x - (cell + (charWidth iW ch : Int)) = x - cell - (charWidth iW ch : Int) := by
        ring
      rw [harg]
      omega

theorem cellToCharIdx_eq_simple (iW : Char → Bool) (l : List Char) (x : Int) :
    cellToCharIdx iW l x = c2cSimple iW l x := by
  unfold cellToCharIdx
  rw [cellToCharIdxAux_eq]
  simp

theorem snapCellAux_eq (iW : Char → Bool) (x : Int) :
    ∀ (l : List Char) (cell : Int),
      snapCellAux iW x l cell = cell + snapSimple iW l (x - cell) := by
  intro l
  induction l with
  | nil => intro cell; simp [snapCellAux, snapSimple]
  | cons ch rest ih =>
    intro cell
    simp only [snapCellAux, snapSimple]
    by_cases h : x < cell + (charWidth iW ch : Int)
    · rw [if_pos h, if_pos (by omega)]
      omega
    · rw [if_neg h, if_neg (by omega), ih]
      have harg : x - (cell + (charWidth iW ch : Int)) = x - cell - (charWidth iW ch : Int) := by
        ring
      rw [harg]
      omega

theorem snapCellText_eq_simple (iW : Char → Bool) (l : List Char) (x : Int) :
    snapCellText iW l x = snapSimple iW l x := by
  unfold snapCellText
  rw [snapCellAux_eq]
  simp

theorem c2cSimple_nonpos (iW : Char → Bool) :
    ∀ (l : List Char) (x : Int), x ≤ 0 → c2cSimple iW l x = 0 := by
  intro l
  cases l with
  | nil => intro x _; rfl
  | cons ch rest => intro x h; simp only [c2cSimple, if_pos h]

theorem c2cSimple_start (iW : Char → Bool) :
    ∀ (l : List Char) (k : Nat), k ≤ l.length →
      c2cSimple iW l ((listWidth iW (l.take k) : Nat) : Int) = k := by
  intro l
  induction l with
  | nil =>
    intro k hk
    simp only [List.length_nil, Nat.le_zero] at hk
    subst hk
    rfl
  | cons ch rest ih =>
    intro k hk
    cases k with
    | zero => simp [c2cSimple, listWidth_nil]
    | succ m =>
      rw [List.take_succ_cons, listWidth_cons]
      have hw := charWidth_pos iW ch
      simp only [c2cSimple]
      rw [if_neg (by push_cast; omega)]
      have harg :
          ((charWidth iW ch + listWidth iW (rest.take m) : Nat) : Int) -
            (charWidth iW ch : Int) = ((listWidth iW (rest.take m) : Nat) : Int) := by
        push_cast; ring
      rw [harg, ih m (by simpa using hk)]

theorem c2cSimple_within (iW : Char → Bool) :
    ∀ (l : List Char) (k : Nat) (hk : k < l.length) (d : Int),
      0 < d → d < charWidth iW (l.get ⟨k, hk⟩) →
      c2cSimple iW l ((listWidth iW (l.take k) : Nat) + d) = k + 1 := by
  intro l
  induction l with
  | nil => intro k hk; simp at hk
  | cons ch rest ih =>
    intro k hk d hd1 hd2
    cases k with
    | zero =>
      have hget : (ch :: rest).get ⟨0, hk⟩ = ch := rfl
      rw [hget] at hd2
      simp only [List.take_zero, listWidth_nil]
      simp only [c2cSimple]
      rw [if_neg (by push_cast; omega)]
      simp only [Nat.cast_zero, zero_add]
      rw [c2cSimple_nonpos iW rest (d - (charWidth iW ch : Int)) (by omega)]
    | succ m =>
      rw [List.take_succ_cons, listWidth_cons]
      have hw := charWidth_pos iW ch
      simp only [c2cSimple]
      rw [if_neg (by push_cast; omega)]
      have harg :
          ((charWidth iW ch + listWidth iW (rest.take m) : Nat) : Int) + d -
            (charWidth iW ch : Int) = ((listWidth iW (rest.take m) : Nat) : Int) + d := by
        push_cast; ring
      rw [harg, ih m (by simpa using hk) d hd1 (by simpa using hd2)]

theorem c2cSimple_past (iW : Char → Bool) :
    ∀ (l : List Char) (x : Int), ((listWidth iW l : Nat) : Int) ≤ x →
      c2cSimple iW l x = l.length := by
  intro l
  induction l with
  | nil => intro x _; rfl
  | cons ch rest ih =>
    intro x hx
    rw [listWidth_cons] at hx
    have hw := charWidth_pos iW ch
    simp only [c2cSimple]
    rw [if_neg (by push_cast at hx ⊢; omega)]
    rw [ih (x - charWidth iW ch) (by push_cast at hx ⊢; omega)]
    simp

theorem snapSimple_le (iW : Char → Bool) :
    ∀ (l : List Char) (x : Int), 0 ≤ x → snapSimple iW l x ≤ x := by
  intro l
  induction l with
  | nil => intro x _; simp [snapSimple]
  | cons ch rest ih =>
    intro x hx
    simp only [snapSimple]
    split
    · omega
    · have := ih (x - charWidth iW ch) (by omega)
      omega

theorem snapSimple_nonneg (iW : Char → Bool) :
    ∀ (l : List Char) (x : Int), 0 ≤ x → 0 ≤ snapSimple iW l x := by
  intro l
  induction l with
  | nil => intro x hx; simpa [snapSimple] using hx
  | cons ch rest ih =>
    intro x hx
    simp only [snapSimple]
    split
    · omega
    · have := ih (x - charWidth iW ch) (by omega)
      omega

theorem snapSimple_idem (iW : Char → Bool) :
    ∀ (l : List Char) (x : Int), 0 ≤ x →
      snapSimple iW l (snapSimple iW l x) = snapSimple iW l x := by
  intro l
  induction l with
  | nil => intro x _; rfl
  | cons ch rest ih =>
    intro x hx
    have hw := charWidth_pos iW ch
    simp only [snapSimple]
    split
    · rw [if_pos (by omega)]
    · rename_i hcond
      have hx' : (0 : Int) ≤ x - charWidth iW ch := by omega
      have hnn := snapSimple_nonneg iW rest (x - charWidth iW ch) hx'
      rw [if_neg (by omega)]
      have harg :
          snapSimple iW rest (x - (charWidth iW ch : Int)) + (charWidth iW ch : Int) -
            (charWidth iW ch : Int) = snapSimple iW rest (x - (charWidth iW ch : Int)) := by
        ring
      rw [harg, ih (x - charWidth iW ch) hx']

theorem snapSimple_span (iW : Char → Bool) :
    ∀ (l : List Char) (k : Nat) (hk : k < l.length) (x : Int),
      ((listWidth iW (l.take k) : Nat) : Int) ≤ x →
      x < (listWidth iW (l.take k) : Nat) + (charWidth iW (l.get ⟨k, hk⟩) : Nat) →
      snapSimple iW l x = ((listWidth iW (l.take k) : Nat) : Int) := by
  intro l
  induction l with
  | nil => intro k hk; simp at hk
  | cons ch rest ih =>
    intro k hk x hx1 hx2
    cases k with
    | zero =>
      simp only [List.take_zero, listWidth_nil, List.get] at *
      simp only [snapSimple]
      rw [if_pos (by push_cast at hx2 ⊢; omega)]
      simp
    | succ m =>
      rw [List.take_succ_cons, listWidth_cons] at hx1 hx2 ⊢
      have hw := charWidth_pos iW ch
      simp only [snapSimple]
      rw [if_neg (by push_cast at hx1 ⊢; omega)]
      have hget : (ch :: rest).get ⟨m + 1, hk⟩ = rest.get ⟨m, by simpa using hk⟩ := rfl
      rw [hget] at hx2
      rw [ih m (by simpa using hk) (x - charWidth iW ch)
        (by push_cast at hx1 ⊢; omega) (by push_cast at hx2 ⊢; omega)]
      push_cast
      ring

theorem snapSimple_past (iW : Char → Bool) :
    ∀ (l : List Char) (x : Int), ((listWidth iW l : Nat) : Int) ≤ x →
      snapSimple iW l x = x := by
  intro l
  induction l with
  | nil => intro x _; rfl
  | cons ch rest ih =>
    intro x hx
    rw [listWidth_cons] at hx
    have hw := charWidth_pos iW ch
    simp only [snapSimple]
    rw [if_neg (by push_cast at hx ⊢; omega)]
    rw [ih (x - charWidth iW ch) (by push_cast at hx ⊢; omega)]
    ring

theorem snapSimple_start (iW : Char → Bool) :
    ∀ (l : List Char) (x : Int), 0 ≤ x → x < (listWidth iW l : Nat) →
      ∃ k, k < l.length ∧ snapSimple iW l x = ((listWidth iW (l.take k) : Nat) : Int) := by
  intro l
  induction l with
  | nil => intro x hx1 hx2; simp [listWidth_nil] at hx2; omega
  | cons ch rest ih =>
    intro x hx1 hx2
    rw [listWidth_cons] at hx2
    simp only [snapSimple]
    split
    · exact ⟨0, by simp, by simp [listWidth_nil]⟩
    · rename_i hcond
      have hx' : (0 : Int) ≤ x - charWidth iW ch := by omega
      have hx2' : x - charWidth iW ch < (listWidth iW rest : Nat) := by
        push_cast at hx2 ⊢; omega
      obtain ⟨k, hk, heq⟩ := ih (x - charWidth iW ch) hx' hx2'
      refine ⟨k + 1, by simpa using hk, ?_⟩
      rw [List.take_succ_cons, listWidth_cons, heq]
      push_cast
      ring

theorem snapSimple_width1 (iW : Char → Bool) :
    ∀ (l : List Char), (∀ c ∈ l, iW c = false) →
      ∀ (x : Int), 0 ≤ x → snapSimple iW l x = x := by
  intro l
  induction l with
  | nil => intro _ x _; rfl
  | cons ch rest ih =>
    intro hl x hx
    have hch : iW ch = false := hl ch (by simp)
    have hw : charWidth iW ch = 1 := by simp [charWidth, hch]
    simp only [snapSimple, hw]
    split
    · omega
    · simp only [Nat.cast_one]
      rw [ih (fun c hc => hl c (by simp [hc])) (x - 1) (by omega)]
      omega

/- Frame lemmas: the rendering and bookkeeping operations only touch the
screen's render state, the dirty flag, or the scroll offset, so the fields in
stableEq survive every cursor operation. -/

theorem markDirty_proj (w : World) :
    (markDirty w).active = w.active ∧ (markDirty w).smstate = w.smstate ∧
    (markDirty w).selMode = w.selMode ∧ (markDirty w).selPrevMode = w.selPrevMode ∧
    (markDirty w).cursorAbs = w.cursorAbs ∧ (markDirty w).cursorX = w.cursorX ∧
    (markDirty w).selStartAbs = w.selStartAbs ∧ (markDirty w).selStartX = w.selStartX ∧
    (markDirty w).clipboard = w.clipboard ∧ (markDirty w).windowSet = w.windowSet := by
  unfold markDirty
  split <;> exact ⟨rfl, rfl, rfl, rfl, rfl, rfl, rfl, rfl, rfl, rfl⟩

theorem syncSelection_screenOnly (iW : Char → Bool) (w : World) :
    ∃ scr, syncSelection iW w = { w with screen := scr } ∧
      scr.history = w.screen.history ∧ scr.live = w.screen.live ∧
      scr.columns = w.screen.columns ∧ scr.scrolledBy = w.screen.scrolledBy := by
  unfold syncSelection
  split
  · exact ⟨w.screen, rfl, rfl, rfl, rfl, rfl⟩
  · exact ⟨_, rfl, rfl, rfl, rfl, rfl⟩

theorem syncCursor_screenOnly (iW : Char → Bool) (w : World) :
    ∃ scr, syncCursor iW w = { w with screen := scr } ∧
      scr.history = w.screen.history ∧ scr.live = w.screen.live ∧
      scr.columns = w.screen.columns ∧ scr.scrolledBy = w.screen.scrolledBy := by
  unfold syncCursor
  split
  · exact ⟨w.screen, rfl, rfl, rfl, rfl, rfl⟩
  · obtain ⟨scr, h, h1, h2, h3, h4⟩ := syncSelection_screenOnly iW
      { w with screen := { w.screen with renderCursor := syncCursorVal iW w } }
    exact ⟨scr, by rw [h], h1, h2, h3, h4⟩

theorem stableEq_refl (w : World) : stableEq w w := ⟨rfl, rfl, rfl, rfl, rfl, rfl⟩

theorem stableEq_trans {w1 w2 w3 : World} (h1 : stableEq w1 w2) (h2 : stableEq w2 w3) :
    stableEq w1 w3 :=
  ⟨h2.1.trans h1.1, h2.2.1.trans h1.2.1, h2.2.2.1.trans h1.2.2.1,
    h2.2.2.2.1.trans h1.2.2.2.1, h2.2.2.2.2.1.trans h1.2.2.2.2.1,
    h2.2.2.2.2.2.trans h1.2.2.2.2.2⟩

theorem stableEq_markDirty (w : World) : stableEq w (markDirty w) := by
  unfold markDirty
  split
  · exact ⟨rfl, rfl, rfl, rfl, rfl, rfl⟩
  · exact stableEq_refl w

theorem stableEq_syncSelection (iW : Char → Bool) (w : World) :
    stableEq w (syncSelection iW w) := by
  obtain ⟨scr, h, h1, h2, h3, _⟩ := syncSelection_screenOnly iW w
  rw [h]
  exact ⟨rfl, rfl, rfl, h1, h2, h3⟩

theorem stableEq_syncCursor (iW : Char → Bool) (w : World) :
    stableEq w (syncCursor iW w) := by
  obtain ⟨scr, h, h1, h2, h3, _⟩ := syncCursor_screenOnly iW w
  rw [h]
  exact ⟨rfl, rfl, rfl, h1, h2, h3⟩

theorem scrollBy_history (s : Screen) (n : Int) (up : Bool) :
    (s.scrollBy n up).history = s.history := by
  unfold Screen.scrollBy; split <;> rfl

theorem scrollBy_live (s : Screen) (n : Int) (up : Bool) :
    (s.scrollBy n up).live = s.live := by
  unfold Screen.scrollBy; split <;> rfl

theorem scrollBy_columns (s : Screen) (n : Int) (up : Bool) :
    (s.scrollBy n up).columns = s.columns := by
  unfold Screen.scrollBy; split <;> rfl

theorem stableEq_set_cursor (w : World) (a x : Int) :
    stableEq w { w with cursorAbs := a, cursorX := x } :=
  ⟨rfl, rfl, rfl, rfl, rfl, rfl⟩

theorem stableEq_set_cursorX (w : World) (x : Int) :
    stableEq w { w with cursorX := x } :=
  ⟨rfl, rfl, rfl, rfl, rfl, rfl⟩

theorem stableEq_ensureCursorVisible (w : World) :
    stableEq w (ensureCursorVisible w) := by
  unfold ensureCursorVisible
  split
  · exact stableEq_refl w
  · dsimp only
    split
    · exact ⟨rfl, rfl, rfl, rfl, rfl, rfl⟩
    · split
      · exact ⟨rfl, rfl, rfl, scrollBy_history _ _ _, scrollBy_live _ _ _,
          scrollBy_columns _ _ _⟩
      · split
        · exact ⟨rfl, rfl, rfl, scrollBy_history _ _ _, scrollBy_live _ _ _,
            scrollBy_columns _ _ _⟩
        · exact ⟨rfl, rfl, rfl, rfl, rfl, rfl⟩

theorem getLineText_congr {w w' : World} (h : stableEq w w') (i : Int) :
    getLineText w' i = getLineText w i := by
  obtain ⟨h1, h2, h3, h4, h5, _⟩ := h
  unfold getLineText
  rw [h1, h2, h4, h5]

theorem totalLines_congr {w w' : World} (h : stableEq w w') :
    totalLines w' = totalLines w := by
  obtain ⟨h1, h2, _, h4, h5, _⟩ := h
  unfold totalLines Screen.lines
  rw [h1, h2, h4, h5]

theorem lowLine_congr {w w' : World} (h : stableEq w w') (i : Int) :
    lowLine w' i = lowLine w i := by
  unfold lowLine
  rw [getLineText_congr h]

/-- C9: for every line and cell position, _snap_cell_x is idempotent, never
returns more than cell_x, and when cell_x lies within the line's occupied
width the result is the starting cell of some character (never the trailing
cell of a wide character). -/
theorem snapCell_properties (iW : Char → Bool) (w : World) (absLine : Int) (x : Int)
    (hx : 0 ≤ x) :
    snapCellX iW w absLine (snapCellX iW w absLine x) = snapCellX iW w absLine x ∧
    snapCellX iW w absLine x ≤ x ∧
    (x < ((listWidth iW (getLineText w absLine) : Nat) : Int) →
      ∃ k, k < (getLineText w absLine).length ∧
        snapCellX iW w absLine x =
          ((listWidth iW ((getLineText w absLine).take k) : Nat) : Int)) := by
  unfold snapCellX
  simp only [snapCellText_eq_simple]
  refine ⟨snapSimple_idem iW _ x hx, snapSimple_le iW _ x hx, fun hlt => ?_⟩
  exact snapSimple_start iW _ x hx hlt

/-- C9 witness: the properties instantiated on the line あi at cell 1 (the
trailing cell of the wide character). -/
theorem snapCell_properties_witness :
    snapCellX wideAh wC5a 0 (snapCellX wideAh wC5a 0 1) = snapCellX wideAh wC5a 0 1 ∧
    snapCellX wideAh wC5a 0 1 ≤ 1 ∧
    ((1 : Int) < ((listWidth wideAh (getLineText wC5a 0) : Nat) : Int) →
      ∃ k, k < (getLineText wC5a 0).length ∧
        snapCellX wideAh wC5a 0 1 =
          ((listWidth wideAh ((getLineText wC5a 0).take k) : Nat) : Int)) :=
  snapCell_properties wideAh wC5a 0 1 (by norm_num)

/-- C4 counterexample: on the text あi the wide character あ occupies cells 0
and 1 (its width is 2 and its start cell is 0), yet _cell_to_char_idx at its
trailing cell 1 returns 1 (the index of the following character i), not the
wide character's own index 0 as the claim states. -/
theorem cellToCharIdx_trailing_cell_counterexample :
    charWidth wideAh 'あ' = 2 ∧
    listWidth wideAh (['あ', 'i'].take 0) = 0 ∧
    cellToCharIdx wideAh ['あ', 'i'] 0 = 0 ∧
    cellToCharIdx wideAh ['あ', 'i'] 1 ≠ 0 := by
  decide

/-- C4 (amended): _cell_to_char_idx returns the smallest code-point index
whose character starts at or after cell_x: at a character's starting cell it
returns that character's index, at the trailing cell of a wide character it
returns the index of the following character, and at or beyond the line's
total cell width it returns the text length. -/
theorem cellToCharIdx_spec (iW : Char → Bool) (text : List Char) (k : Nat) (x : Int) :
    (k ≤ text.length →
      cellToCharIdx iW text ((listWidth iW (text.take k) : Nat) : Int) = k) ∧
    (∀ hk : k < text.length, iW (text.get ⟨k, hk⟩) = true →
      cellToCharIdx iW text ((listWidth iW (text.take k) : Nat) + 1) = k + 1) ∧
    (((listWidth iW text : Nat) : Int) ≤ x → cellToCharIdx iW text x = text.length) := by
  refine ⟨fun hk => ?_, fun hk hwide => ?_, fun hx => ?_⟩
  · rw [cellToCharIdx_eq_simple]
    exact c2cSimple_start iW text k hk
  · rw [cellToCharIdx_eq_simple]
    have hw : charWidth iW (text.get ⟨k, hk⟩) = 2 := by
      unfold charWidth
      rw [hwide]
      simp
    exact c2cSimple_within iW text k hk 1 (by norm_num) (by rw [hw]; norm_num)
  · rw [cellToCharIdx_eq_simple]
    exact c2cSimple_past iW text x hx

/-- C4 witness: the three parts instantiated on あi (k = 0, x = 3). -/
theorem cellToCharIdx_spec_witness :
    cellToCharIdx wideAh ['あ', 'i'] ((listWidth wideAh (['あ', 'i'].take 0) : Nat) : Int) = 0 ∧
    cellToCharIdx wideAh ['あ', 'i'] ((listWidth wideAh (['あ', 'i'].take 0) : Nat) + 1) = 0 + 1 ∧
    cellToCharIdx wideAh ['あ', 'i'] 3 = (['あ', 'i'] : List Char).length :=
  ⟨(cellToCharIdx_spec wideAh ['あ', 'i'] 0 3).1 (by norm_num),
   (cellToCharIdx_spec wideAh ['あ', 'i'] 0 3).2.1 (by norm_num) (by decide),
   (cellToCharIdx_spec wideAh ['あ', 'i'] 0 3).2.2 (by decide)⟩

/-- C2 (code bug): a reachable state violating the cursor invariant.  Enter
scroll mode on a main screen whose single line is the wide character あ
(columns = 2, terminal cursor at (0,0)) and press $: the handler sets
cursor_x = columns - 1 = 1 without snapping, leaving the cursor on the
trailing cell of the wide character, where snap_cell gives 0 ≠ 1. -/
theorem dollar_breaks_snap_invariant :
    wC2b.active = true ∧ wC2b.smstate = ScrollModeState.NAVIGATE ∧
    wC2b.cursorAbs = 0 ∧ wC2b.cursorX = 1 ∧
    snapCellX wideAh wC2b wC2b.cursorAbs wC2b.cursorX = 0 := by
  decide

/- Dispatch lemmas: handle_key forwards press events to the state handler. -/

theorem handleKey_select (iW : Char → Bool) (w : World) (ev : KeyEvent)
    (ha : ev.action = GLFW_PRESS ∨ ev.action = GLFW_REPEAT)
    (hw : w.windowSet = true) (hs : w.smstate = ScrollModeState.SELECT) :
    handleKey iW w ev = handleSelect iW w ev := by
  unfold handleKey
  rw [if_neg (not_not_intro ha), if_neg (by simp [hw]), hs]

theorem handleKey_navigate (iW : Char → Bool) (w : World) (ev : KeyEvent)
    (ha : ev.action = GLFW_PRESS ∨ ev.action = GLFW_REPEAT)
    (hw : w.windowSet = true) (hs : w.smstate = ScrollModeState.NAVIGATE) :
    handleKey iW w ev = handleNavigate iW w ev := by
  unfold handleKey
  rw [if_neg (not_not_intro ha), if_neg (by simp [hw]), hs]

theorem markDirty_smstate (w : World) : (markDirty w).smstate = w.smstate :=
  (markDirty_proj w).2.1

theorem markDirty_selMode (w : World) : (markDirty w).selMode = w.selMode :=
  (markDirty_proj w).2.2.1

theorem markDirty_cursorAbs (w : World) : (markDirty w).cursorAbs = w.cursorAbs :=
  (markDirty_proj w).2.2.2.2.1

theorem markDirty_cursorX (w : World) : (markDirty w).cursorX = w.cursorX :=
  (markDirty_proj w).2.2.2.2.2.1

theorem syncCursor_smstate (iW : Char → Bool) (w : World) :
    (syncCursor iW w).smstate = w.smstate := by
  obtain ⟨scr, h, _⟩ := syncCursor_screenOnly iW w
  rw [h]

theorem syncCursor_selMode (iW : Char → Bool) (w : World) :
    (syncCursor iW w).selMode = w.selMode := by
  obtain ⟨scr, h, _⟩ := syncCursor_screenOnly iW w
  rw [h]

theorem syncCursor_cursorAbs (iW : Char → Bool) (w : World) :
    (syncCursor iW w).cursorAbs = w.cursorAbs := by
  obtain ⟨scr, h, _⟩ := syncCursor_screenOnly iW w
  rw [h]

theorem syncCursor_cursorX (iW : Char → Bool) (w : World) :
    (syncCursor iW w).cursorX = w.cursorX := by
  obtain ⟨scr, h, _⟩ := syncCursor_screenOnly iW w
  rw [h]

/- Evaluations of _handle_select at the three mode-toggle key events. -/

theorem handleSelect_evv (iW : Char → Bool) (w : World) :
    handleSelect iW w evv =
      (markDirty (syncCursor iW
        (if w.selMode = some SelMode.char then
          { w with selMode := none, smstate := ScrollModeState.NAVIGATE }
        else { w with selMode := some SelMode.char })), true) := by
  unfold handleSelect
  dsimp only
  rw [if_neg (by decide), if_neg (by decide), if_neg (by decide), if_neg (by decide),
    if_neg (by decide), if_pos (by decide)]

theorem handleSelect_evShiftV (iW : Char → Bool) (w : World) :
    handleSelect iW w evShiftV =
      (markDirty (syncCursor iW
        (if w.selMode = some SelMode.line then
          { w with selMode := some (w.selPrevMode.getD SelMode.char) }
        else { w with selPrevMode := w.selMode, selMode := some SelMode.line })), true) := by
  unfold handleSelect
  dsimp only
  rw [if_neg (by decide), if_neg (by decide), if_neg (by decide), if_neg (by decide),
    if_neg (by decide), if_neg (by decide), if_pos (by decide)]

theorem handleSelect_evCtrlV (iW : Char → Bool) (w : World) :
    handleSelect iW w evCtrlV =
      (markDirty (syncCursor iW
        (if w.selMode = some SelMode.block then
          { w with selMode := some (w.selPrevMode.getD SelMode.char) }
        else { w with selPrevMode := w.selMode, selMode := some SelMode.block })), true) := by
  unfold handleSelect
  dsimp only
  rw [if_neg (by decide), if_neg (by decide), if_neg (by decide), if_neg (by decide),
    if_neg (by decide), if_neg (by decide), if_neg (by decide), if_pos (by decide)]

/-- C3 counterexample: from NAVIGATE, V starts a line selection; pressing V
again while the mode is line does not transition to NAVIGATE and does not
clear the selection — the machine stays in SELECT with mode char. -/
theorem select_toggle_line_counterexample :
    wC3a.smstate = ScrollModeState.SELECT ∧ wC3a.selMode = some SelMode.line ∧
    wC3b.smstate = ScrollModeState.SELECT ∧ wC3b.selMode = some SelMode.char := by
  decide

/-- C3 (amended): in SELECT, pressing v while the mode is char transitions to
NAVIGATE and clears the selection; pressing V while the mode is line (resp.
Ctrl-V while the mode is block) keeps the machine in SELECT and reverts the
selection mode to the previously saved mode, defaulting to char. -/
theorem select_toggle_modes (iW : Char → Bool) (w : World)
    (hw : w.windowSet = true) (hs : w.smstate = ScrollModeState.SELECT) :
    (w.selMode = some SelMode.char →
      (handleKey iW w evv).1.smstate = ScrollModeState.NAVIGATE ∧
      (handleKey iW w evv).1.selMode = none) ∧
    (w.selMode = some SelMode.line →
      (handleKey iW w evShiftV).1.smstate = ScrollModeState.SELECT ∧
      (handleKey iW w evShiftV).1.selMode = some (w.selPrevMode.getD SelMode.char)) ∧
    (w.selMode = some SelMode.block →
      (handleKey iW w evCtrlV).1.smstate = ScrollModeState.SELECT ∧
      (handleKey iW w evCtrlV).1.selMode = some (w.selPrevMode.getD SelMode.char)) := by
  refine ⟨fun hchar => ?_, fun hline => ?_, fun hblock => ?_⟩
  · rw [handleKey_select iW w evv (Or.inl rfl) hw hs, handleSelect_evv, if_pos hchar]
    constructor
    · rw [markDirty_smstate, syncCursor_smstate]
    · rw [markDirty_selMode, syncCursor_selMode]
  · rw [handleKey_select iW w evShiftV (Or.inl rfl) hw hs, handleSelect_evShiftV,
      if_pos hline]
    constructor
    · rw [markDirty_smstate, syncCursor_smstate, hs]
    · rw [markDirty_selMode, syncCursor_selMode]
  · rw [handleKey_select iW w evCtrlV (Or.inl rfl) hw hs, handleSelect_evCtrlV,
      if_pos hblock]
    constructor
    · rw [markDirty_smstate, syncCursor_smstate, hs]
    · rw [markDirty_selMode, syncCursor_selMode]

/-- C3 witness: the line-mode component instantiated on the reachable SELECT
state wC3a (line selection, no previously saved mode). -/
theorem select_toggle_modes_witness :
    (handleKey wideAh wC3a evShiftV).1.smstate = ScrollModeState.SELECT ∧
    (handleKey wideAh wC3a evShiftV).1.selMode = some (wC3a.selPrevMode.getD SelMode.char) :=
  (select_toggle_modes wideAh wC3a (by decide) (by decide)).2.1 (by decide)

theorem markDirty_clipboard (w : World) : (markDirty w).clipboard = w.clipboard :=
  (markDirty_proj w).2.2.2.2.2.2.2.2.1

theorem exitMode_clipboard (w : World) : (exitMode w).clipboard = w.clipboard := by
  unfold exitMode
  dsimp only
  split <;> rw [markDirty_clipboard]

theorem exitMode_active (w : World) : (exitMode w).active = false := rfl

/-- C10: when the extracted selection text is empty (for instance a selection
covering only right-trimmed trailing whitespace), yanking without the stay
modifier exits scroll mode without invoking the clipboard, leaving the system
clipboard contents unchanged. -/
theorem yank_empty_no_clipboard (iW : Char → Bool) (w : World)
    (h : getSelectedText iW w = []) :
    (yankSelection iW w false).clipboard = w.clipboard ∧
    (yankSelection iW w false).active = false := by
  unfold yankSelection
  rw [h]
  dsimp only
  rw [if_neg (by decide), if_neg (by decide)]
  exact ⟨exitMode_clipboard w, exitMode_active w⟩

/-- C10 witness: a char selection covering only the trailing spaces of the
line "ab   " (cells 2..4); the extracted text right-trims to empty, the
clipboard keeps its prior contents and the mode deactivates. -/
theorem yank_empty_no_clipboard_witness :
    (yankSelection wideAh wC10 false).clipboard = wC10.clipboard ∧
    (yankSelection wideAh wC10 false).active = false :=
  yank_empty_no_clipboard wideAh wC10 (by decide)

theorem intRange_self_succ (a : Int) : intRange a (a + 1) = [a] := by
  unfold intRange
  rw [show (a + 1 - a).toNat = 1 from by omega]
  rfl

theorem joinNL_single (x : List Char) : joinNL [x] = x := by
  simp [joinNL, List.intercalate]

/-- C6: for a char-mode selection whose anchor and cursor lie on the same
line, the extracted text equals the right-trimmed slice of that line from the
smaller cell bound to the larger cell bound inclusive, with the cell bounds
converted through cell_to_char_idx (the end bound converted at end_cell + 1). -/
theorem char_selection_single_line_text (iW : Char → Bool) (w : World)
    (hm : w.selMode = some SelMode.char) (hline : w.selStartAbs = w.cursorAbs) :
    getSelectedText iW w =
      rstrip (pySlice (getLineText w w.cursorAbs)
        (cellToCharIdx iW (getLineText w w.cursorAbs) (min w.selStartX w.cursorX))
        (cellToCharIdx iW (getLineText w w.cursorAbs)
          (max w.selStartX w.cursorX + 1))) := by
  unfold getSelectedText
  rw [hm]
  dsimp only
  rw [if_pos (le_of_eq hline), if_neg (by decide), hline, intRange_self_succ]
  rcases le_or_lt w.selStartX w.cursorX with hx | hx
  · rw [if_pos (Or.inr ⟨rfl, hx⟩), min_eq_left hx, max_eq_right hx]
    simp [joinNL_single]
  · rw [if_neg (by
      rintro (hlt | ⟨_, hle⟩)
      · exact absurd hlt (lt_irrefl _)
      · exact absurd hle (not_le_of_lt hx)),
      min_eq_right (le_of_lt hx), max_eq_left (le_of_lt hx)]
    simp [joinNL_single]

/-- C6 witness: the char selection of cells 1..3 of the single line "ab cd"
extracts the right-trimmed slice "b c". -/
theorem char_selection_single_line_text_witness :
    getSelectedText wideAh wC6 =
      rstrip (pySlice (getLineText wC6 wC6.cursorAbs)
        (cellToCharIdx wideAh (getLineText wC6 wC6.cursorAbs)
          (min wC6.selStartX wC6.cursorX))
        (cellToCharIdx wideAh (getLineText wC6 wC6.cursorAbs)
          (max wC6.selStartX wC6.cursorX + 1))) :=
  char_selection_single_line_text wideAh wC6 (by decide) (by decide)

/- The search loops: Python str.find from a natural start position is the
first position of the ascending range satisfying the prefix test. -/

theorem findIn_nat_eq (q l : List Char) (s : Nat) :
    findIn q l (s : Int) =
      (rangeFrom s (l.length + 1 - s)).find? (fun c => q.isPrefixOf (l.drop c)) := by
  unfold findIn
  rw [if_neg (by omega)]
  rw [Int.toNat_natCast]

theorem lineMatchesAux_eq_filter (q l : List Char) :
    ∀ (fuel start : Nat), l.length + 1 - start ≤ fuel →
      lineMatchesAux q l fuel start =
        (rangeFrom start (l.length + 1 - start)).filter
          (fun c => q.isPrefixOf (l.drop c)) := by
  intro fuel
  induction fuel with
  | zero =>
    intro start h
    have h0 : l.length + 1 - start = 0 := by omega
    rw [h0]
    rfl
  | succ f ih =>
    intro start h
    rw [lineMatchesAux]
    rcases hfind : findIn q l (start : Int) with _ | col
    · rw [findIn_nat_eq, rangeFrom_find?_eq_none] at hfind
      exact (rangeFrom_filter_eq_nil fun j hj1 hj2 => hfind j hj1 hj2).symm
    · rw [findIn_nat_eq, rangeFrom_find?_eq_some] at hfind
      obtain ⟨h1, h2, h3, h4⟩ := hfind
      dsimp only
      rw [rangeFrom_filter_split h1 h2 h3 h4]
      rw [ih (col + 1) (by omega)]
      have hcnt : start + (l.length + 1 - start) - (col + 1) =
          l.length + 1 - (col + 1) := by omega
      rw [hcnt]

theorem lineMatchesFound_eq_occurrences (q l : List Char) :
    lineMatchesFound q l = occurrences q l := by
  unfold lineMatchesFound occurrences
  rw [lineMatchesAux_eq_filter q l (l.length + 1) 0 (by omega)]
  norm_num

/-- C1 counterexample: on a buffer whose single line is あab, find_all for the
query "ab" reports the match at column 1 — the code-point index of its first
character — while that character's cell position is 2 (あ occupies cells 0 and
1), so the reported column is not the cell position the claim states. -/
theorem findAll_col_not_cell_counterexample :
    findAllMatches wC1 = [(0, 1)] ∧
    listWidth wideAh ((getLineText wC1 0).take 1) = 2 ∧ (1 : Nat) ≠ 2 := by
  decide

/-- C1 (amended): for every nonempty query and buffer state, find_all
case-folds both the query and each line and returns, line by line from the
top, one entry per occurrence of the folded query in the folded line, where
each entry's second component is the code-point index (not the cell position)
of the match's first character. -/
theorem findAll_enumerates_folded_occurrences (w : World)
    (_hq : w.searchQuery ≠ []) :
    findAllMatches w = findAllSpec w := by
  unfold findAllMatches findAllSpec
  simp only [lineMatchesFound_eq_occurrences]

/-- C1 witness: the enumeration instantiated on the あab buffer with query
"ab". -/
theorem findAll_enumerates_folded_occurrences_witness :
    findAllMatches wC1 = findAllSpec wC1 :=
  findAll_enumerates_folded_occurrences wC1 (by decide)

/- Additional width bookkeeping for the wide-character movement proof. -/

theorem listWidth_foldr_init (iW : Char → Bool) :
    ∀ (a : List Char) (i : Nat),
      a.foldr (fun ch acc => charWidth iW ch + acc) i =
        a.foldr (fun ch acc => charWidth iW ch + acc) 0 + i := by
  intro a
  induction a with
  | nil => intro i; simp
  | cons ch rest ih =>
    intro i
    simp only [List.foldr_cons]
    rw [ih i, ih 0]
    omega

theorem listWidth_append (iW : Char → Bool) (a b : List Char) :
    listWidth iW (a ++ b) = listWidth iW a + listWidth iW b := by
  unfold listWidth
  rw [List.foldr_append, listWidth_foldr_init]

theorem listWidth_take_succ (iW : Char → Bool) (l : List Char) (k : Nat)
    (hk : k < l.length) :
    listWidth iW (l.take (k + 1)) =
      listWidth iW (l.take k) + charWidth iW (l.get ⟨k, hk⟩) := by
  rw [List.take_succ, listWidth_append]
  simp [List.getElem?_eq_getElem hk, listWidth_cons, listWidth_nil, List.get_eq_getElem]

/- Evaluations of the key dispatch on the right-move events. -/

theorem handleNavigate_evl (iW : Char → Bool) (w : World) :
    handleNavigate iW w evl = handleMovement iW w evl := by
  unfold handleNavigate
  dsimp only
  rw [if_neg (by decide), if_neg (by decide), if_neg (by decide), if_neg (by decide),
    if_neg (by decide), if_neg (by decide), if_neg (by decide), if_neg (by decide),
    if_neg (by decide), if_neg (by decide)]

theorem handleNavigate_evRight (iW : Char → Bool) (w : World) :
    handleNavigate iW w evRight = handleMovement iW w evRight := by
  unfold handleNavigate
  dsimp only
  rw [if_neg (by decide), if_neg (by decide), if_neg (by decide), if_neg (by decide),
    if_neg (by decide), if_neg (by decide), if_neg (by decide), if_neg (by decide),
    if_neg (by decide), if_neg (by decide)]

theorem handleMovement_evl (iW : Char → Bool) (w : World) :
    handleMovement iW w evl = (moveCursor iW w 0 1, true) := by
  unfold handleMovement
  dsimp only
  rw [if_neg (by decide), if_neg (by decide), if_neg (by decide), if_pos (by decide)]

theorem handleMovement_evRight (iW : Char → Bool) (w : World) :
    handleMovement iW w evRight = (moveCursor iW w 0 1, true) := by
  unfold handleMovement
  dsimp only
  rw [if_neg (by decide), if_neg (by decide), if_neg (by decide), if_pos (by decide)]

theorem ensureCursorVisible_cursor (w : World) (hw : w.windowSet = true) :
    (ensureCursorVisible w).cursorAbs =
      max 0 (min w.cursorAbs ((totalLines w : Int) - 1)) ∧
    (ensureCursorVisible w).cursorX =
      max 0 (min w.cursorX ((w.screen.columns : Int) - 1)) := by
  unfold ensureCursorVisible
  rw [if_neg (by simp [hw])]
  dsimp only
  split
  · exact ⟨rfl, rfl⟩
  · split
    · exact ⟨rfl, rfl⟩
    · split
      · exact ⟨rfl, rfl⟩
      · exact ⟨rfl, rfl⟩

/- The core of C5 at the level of _move_cursor: a right-move from the start
cell of a wide character advances the cursor by the character's full width. -/
theorem moveCursor_right_wide (iW : Char → Bool) (w : World) (k : Nat)
    (hw : w.windowSet = true)
    (ha0 : 0 ≤ w.cursorAbs) (ha1 : w.cursorAbs < (totalLines w : Int))
    (hk : k < (getLineText w w.cursorAbs).length)
    (hwide : iW ((getLineText w w.cursorAbs).get ⟨k, hk⟩) = true)
    (hx : w.cursorX =
      ((listWidth iW ((getLineText w w.cursorAbs).take k) : Nat) : Int))
    (hcols : w.cursorX ≤ (w.screen.columns : Int) - 1) :
    (moveCursor iW w 0 1).cursorAbs = w.cursorAbs ∧
    (moveCursor iW w 0 1).cursorX = w.cursorX + 2 := by
  have hwidth : charWidth iW ((getLineText w w.cursorAbs).get ⟨k, hk⟩) = 2 := by
    unfold charWidth
    rw [hwide]
    simp
  have hx0 : 0 ≤ w.cursorX := by
    rw [hx]; positivity
  have hst1 : stableEq w { w with cursorAbs := w.cursorAbs + 0, cursorX := w.cursorX + 1 } :=
    stableEq_set_cursor w _ _
  have hst2 : stableEq w
      (ensureCursorVisible { w with cursorAbs := w.cursorAbs + 0, cursorX := w.cursorX + 1 }) :=
    stableEq_trans hst1 (stableEq_ensureCursorVisible _)
  obtain ⟨hea, hex⟩ := ensureCursorVisible_cursor
    { w with cursorAbs := w.cursorAbs + 0, cursorX := w.cursorX + 1 } hw
  rw [totalLines_congr hst1] at hea
  have hea' : (ensureCursorVisible
      { w with cursorAbs := w.cursorAbs + 0, cursorX := w.cursorX + 1 }).cursorAbs =
      w.cursorAbs := by
    rw [hea]; dsimp only; omega
  have hex' : (ensureCursorVisible
      { w with cursorAbs := w.cursorAbs + 0, cursorX := w.cursorX + 1 }).cursorX =
      max 0 (min (w.cursorX + 1) ((w.screen.columns : Int) - 1)) := by
    rw [hex]
  have hline : getLineText
      (ensureCursorVisible { w with cursorAbs := w.cursorAbs + 0, cursorX := w.cursorX + 1 })
      w.cursorAbs = getLineText w w.cursorAbs := getLineText_congr hst2 _
  have hybounds : w.cursorX ≤ max 0 (min (w.cursorX + 1) ((w.screen.columns : Int) - 1)) ∧
      max 0 (min (w.cursorX + 1) ((w.screen.columns : Int) - 1)) ≤ w.cursorX + 1 := by
    constructor <;> omega
  have hsnap : snapCellX iW
      (ensureCursorVisible { w with cursorAbs := w.cursorAbs + 0, cursorX := w.cursorX + 1 })
      w.cursorAbs (max 0 (min (w.cursorX + 1) ((w.screen.columns : Int) - 1))) =
      w.cursorX := by
    unfold snapCellX
    rw [hline, snapCellText_eq_simple]
    rw [hx]
    exact snapSimple_span iW (getLineText w w.cursorAbs) k hk _
      (by rw [← hx]; exact hybounds.1)
      (by rw [hwidth, ← hx]; push_cast; omega)
  have hci : cellToCharIdx iW (getLineText w w.cursorAbs) w.cursorX = k := by
    rw [cellToCharIdx_eq_simple, hx]
    exact c2cSimple_start iW _ k (le_of_lt hk)
  unfold moveCursor
  dsimp only
  rw [hea', hex', hsnap]
  rw [if_pos ⟨by norm_num, le_refl w.cursorX⟩]
  rw [hline, hci]
  rw [dif_pos hk]
  rw [hwidth]
  constructor
  · rw [markDirty_cursorAbs, syncCursor_cursorAbs]
  · rw [markDirty_cursorX, syncCursor_cursorX]
    push_cast
    ring

/-- C5: when the cursor sits on the start cell of a wide character, the
right-move command (l or the Right arrow) advances the cursor by 2 cells,
landing on the start cell of the following character, with the cursor row
unchanged. -/
theorem right_move_past_wide_char (iW : Char → Bool) (w : World) (k : Nat)
    (hw : w.windowSet = true) (hnav : w.smstate = ScrollModeState.NAVIGATE)
    (ha0 : 0 ≤ w.cursorAbs) (ha1 : w.cursorAbs < (totalLines w : Int))
    (hk : k < (getLineText w w.cursorAbs).length)
    (hwide : iW ((getLineText w w.cursorAbs).get ⟨k, hk⟩) = true)
    (hx : w.cursorX =
      ((listWidth iW ((getLineText w w.cursorAbs).take k) : Nat) : Int))
    (hcols : w.cursorX ≤ (w.screen.columns : Int) - 1) :
    ((handleKey iW w evl).1.cursorAbs = w.cursorAbs ∧
      (handleKey iW w evl).1.cursorX = w.cursorX + 2 ∧
      (handleKey iW w evl).1.cursorX =
        ((listWidth iW ((getLineText w w.cursorAbs).take (k + 1)) : Nat) : Int)) ∧
    ((handleKey iW w evRight).1.cursorAbs = w.cursorAbs ∧
      (handleKey iW w evRight).1.cursorX = w.cursorX + 2) := by
  have hmc := moveCursor_right_wide iW w k hw ha0 ha1 hk hwide hx hcols
  have hwk : ((listWidth iW ((getLineText w w.cursorAbs).take (k + 1)) : Nat) : Int) =
      w.cursorX + 2 := by
    have hcw : charWidth iW ((getLineText w w.cursorAbs).get ⟨k, hk⟩) = 2 := by
      unfold charWidth
      rw [hwide]
      simp
    rw [listWidth_take_succ iW _ k hk, hcw]
    push_cast
    omega
  rw [handleKey_navigate iW w evl (Or.inl rfl) hw hnav, handleNavigate_evl,
    handleMovement_evl]
  rw [handleKey_navigate iW w evRight (Or.inl rfl) hw hnav, handleNavigate_evRight,
    handleMovement_evRight]
  exact ⟨⟨hmc.1, hmc.2, by rw [hwk, hmc.2]⟩, hmc.1, hmc.2⟩

/-- C5 witness: on the line あi with the cursor at cell 0, one right-move puts
the cursor at cell 2 (the start cell of i), not cell 1. -/
theorem right_move_past_wide_char_witness :
    ((handleKey wideAh wC5a evl).1.cursorAbs = wC5a.cursorAbs ∧
      (handleKey wideAh wC5a evl).1.cursorX = wC5a.cursorX + 2 ∧
      (handleKey wideAh wC5a evl).1.cursorX =
        ((listWidth wideAh ((getLineText wC5a wC5a.cursorAbs).take (0 + 1)) : Nat) : Int)) ∧
    ((handleKey wideAh wC5a evRight).1.cursorAbs = wC5a.cursorAbs ∧
      (handleKey wideAh wC5a evRight).1.cursorX = wC5a.cursorX + 2) :=
  right_move_past_wide_char wideAh wC5a 0 (by decide) (by decide) (by decide)
    (by decide) (by decide) (by decide) (by decide) (by decide)

theorem set_windowSet_false_id (w : World) (h : w.windowSet = false) :
    { w with windowSet := false } = w := by
  cases w
  dsimp at h ⊢
  rw [h]

/-- C8: starting from the inactive mode, enter_prompt_jump leaves the mode
inactive and its state unchanged when the window shows the alternate screen or
when no line strictly above the terminal's real cursor matches the prompt
pattern; and it activates the mode only when such a prompt line exists on the
main buffer. -/
theorem enterPromptJump_activation (iW : Char → Bool) (w : World)
    (hact : w.active = false) (hwin : w.windowSet = false) :
    ((w.screen.mainLinebuf = false ∨
        ∀ a : Nat, a < w.screen.history.length + w.screen.cursorY →
          promptSearch (getLineText { w with windowSet := true } (a : Int)) = false) →
      enterPromptJump iW w = w) ∧
    ((enterPromptJump iW w).active = true →
      w.screen.mainLinebuf = true ∧
      ∃ a : Nat, a < w.screen.history.length + w.screen.cursorY ∧
        promptSearch (getLineText { w with windowSet := true } (a : Int)) = true) := by
  unfold enterPromptJump
  by_cases hmain : w.screen.mainLinebuf = false
  · rw [if_pos (by simp [hmain])]
    refine ⟨fun _ => rfl, fun habs => ?_⟩
    rw [hact] at habs
    cases habs
  · rw [if_neg (by simpa using hmain)]
    dsimp only
    simp only [Bool.not_eq_false] at hmain
    rcases hfound : (intRangeDesc
        ((w.screen.history.length : Int) + (w.screen.cursorY : Int) - 1) (-1)).find?
        (fun a => promptSearch (getLineText { w with windowSet := true } a)) with _ | fl
    · refine ⟨fun _ => set_windowSet_false_id w hwin, fun habs => ?_⟩
      have : ({ w with windowSet := false } : World).active = false := hact
      rw [set_windowSet_false_id w hwin] at habs
      rw [hact] at habs
      cases habs
    · unfold intRangeDesc at hfound
      rw [intRangeDescAux_find?_eq_some] at hfound
      obtain ⟨hb1, hb2, hp, _⟩ := hfound
      have hfl0 : 0 ≤ fl := by omega
      have hex : ∃ a : Nat, a < w.screen.history.length + w.screen.cursorY ∧
          promptSearch (getLineText { w with windowSet := true } (a : Int)) = true := by
        refine ⟨fl.toNat, by omega, ?_⟩
        rw [Int.toNat_of_nonneg hfl0]
        exact hp
      refine ⟨fun hno => ?_, fun _ => ⟨hmain, hex⟩⟩
      rcases hno with hno | hno
      · rw [hmain] at hno; cases hno
      · obtain ⟨a, ha1, ha2⟩ := hex
        rw [hno a ha1] at ha2
        cases ha2

/-- C8 witness: on an alternate-screen window, enter_prompt_jump returns with
the mode inactive and the state unchanged. -/
theorem enterPromptJump_activation_witness :
    enterPromptJump wideAh wC8alt = wC8alt :=
  (enterPromptJump_activation wideAh wC8alt (by decide) (by decide)).1
    (Or.inl (by decide))

/- Characterizations of the right-to-left scan embedding Python str.rfind,
and helper facts about prefix occurrence, for the jump round-trip proof. -/

theorem isPrefixOf_length_le {q l : List Char} (h : q.isPrefixOf l = true) :
    q.length ≤ l.length :=
  (List.isPrefixOf_iff_prefix.mp h).length_le

theorem isPrefixOf_drop_false (q l : List Char) (hq : q ≠ []) (j : Nat)
    (hj : l.length < j + q.length) : q.isPrefixOf (l.drop j) = false := by
  by_contra h
  rw [Bool.not_eq_false] at h
  have hlen := isPrefixOf_length_le h
  rw [List.length_drop] at hlen
  have hq' : 0 < q.length := List.length_pos.mpr hq
  omega

theorem rfindIn_natE_eq (q l : List Char) (e : Nat) (hle : e ≤ l.length) :
    rfindIn q l (e : Int) =
      (rangeDown l.length).find?
        (fun c => decide (c + q.length ≤ e) && q.isPrefixOf (l.drop c)) := by
  unfold rfindIn
  rw [if_neg (by omega)]
  rw [show (min (e : Int) (l.length : Int)).toNat = e from by omega]

theorem rfind_full_eq_some (q l : List Char) (hq : q ≠ []) (c : Nat) :
    rfindIn q l (l.length : Int) = some c ↔
      q.isPrefixOf (l.drop c) = true ∧
      ∀ j : Nat, c < j → q.isPrefixOf (l.drop j) = false := by
  rw [rfindIn_natE_eq q l l.length (le_refl _), rangeDown_find?_eq_some]
  have hq' : 0 < q.length := List.length_pos.mpr hq
  constructor
  · rintro ⟨hcl, hp, hrest⟩
    rw [Bool.and_eq_true, decide_eq_true_eq] at hp
    refine ⟨hp.2, fun j hj => ?_⟩
    rcases le_or_lt j l.length with hjl | hjl
    · by_contra hc
      rw [Bool.not_eq_false] at hc
      have hjq := isPrefixOf_length_le hc
      rw [List.length_drop] at hjq
      have hthis := hrest j hj hjl
      rw [hc, Bool.and_true, decide_eq_false_iff_not] at hthis
      exact hthis (by omega)
    · exact isPrefixOf_drop_false q l hq j (by omega)
  · rintro ⟨hp, hrest⟩
    have hcq := isPrefixOf_length_le hp
    rw [List.length_drop] at hcq
    refine ⟨by omega, ?_, fun j hj hjl => ?_⟩
    · rw [Bool.and_eq_true, decide_eq_true_eq]
      exact ⟨by omega, hp⟩
    · rw [hrest j hj, Bool.and_false]

theorem rfind_full_eq_none (q l : List Char) (hq : q ≠ []) :
    rfindIn q l (l.length : Int) = none ↔
      ∀ j : Nat, q.isPrefixOf (l.drop j) = false := by
  rw [rfindIn_natE_eq q l l.length (le_refl _), rangeDown_find?_eq_none]
  have hq' : 0 < q.length := List.length_pos.mpr hq
  constructor
  · intro h j
    rcases le_or_lt j l.length with hjl | hjl
    · by_contra hc
      rw [Bool.not_eq_false] at hc
      have hjq := isPrefixOf_length_le hc
      rw [List.length_drop] at hjq
      have hthis := h j hjl
      rw [hc, Bool.and_true, decide_eq_false_iff_not] at hthis
      exact hthis (by omega)
    · exact isPrefixOf_drop_false q l hq j (by omega)
  · intro h j _
    rw [h j, Bool.and_false]

theorem rfind_bounded_eq_some (q l : List Char) (hq : q ≠ []) (e c : Nat)
    (hle : e ≤ l.length) :
    rfindIn q l (e : Int) = some c ↔
      (c + q.length ≤ e ∧ q.isPrefixOf (l.drop c) = true) ∧
      ∀ j : Nat, c < j → ¬(j + q.length ≤ e ∧ q.isPrefixOf (l.drop j) = true) := by
  rw [rfindIn_natE_eq q l e hle, rangeDown_find?_eq_some]
  have hq' : 0 < q.length := List.length_pos.mpr hq
  constructor
  · rintro ⟨hcl, hp, hrest⟩
    rw [Bool.and_eq_true, decide_eq_true_eq] at hp
    refine ⟨hp, fun j hj => ?_⟩
    rintro ⟨hje, hpj⟩
    have hjq := isPrefixOf_length_le hpj
    rw [List.length_drop] at hjq
    have hthis := hrest j hj (by omega)
    rw [hpj, Bool.and_true, decide_eq_false_iff_not] at hthis
    exact hthis hje
  · rintro ⟨⟨hce, hp⟩, hrest⟩
    have hcq := isPrefixOf_length_le hp
    rw [List.length_drop] at hcq
    refine ⟨by omega, ?_, fun j hj hjl => ?_⟩
    · rw [Bool.and_eq_true, decide_eq_true_eq]
      exact ⟨hce, hp⟩
    · cases hpj : q.isPrefixOf (List.drop j l)
      · rw [Bool.and_false]
      · rw [Bool.and_true, decide_eq_false_iff_not]
        intro hje
        exact hrest j hj ⟨hje, hpj⟩

theorem rfind_bounded_eq_none (q l : List Char) (hq : q ≠ []) (e : Nat)
    (hle : e ≤ l.length) :
    rfindIn q l (e : Int) = none ↔
      ∀ j : Nat, ¬(j + q.length ≤ e ∧ q.isPrefixOf (l.drop j) = true) := by
  rw [rfindIn_natE_eq q l e hle, rangeDown_find?_eq_none]
  have hq' : 0 < q.length := List.length_pos.mpr hq
  constructor
  · intro h j
    rintro ⟨hje, hpj⟩
    have hjq := isPrefixOf_length_le hpj
    rw [List.length_drop] at hjq
    have hthis := h j (by omega)
    rw [hpj, Bool.and_true, decide_eq_false_iff_not] at hthis
    exact hthis hje
  · intro h j _
    cases hpj : q.isPrefixOf (List.drop j l)
    · rw [Bool.and_false]
    · rw [Bool.and_true, decide_eq_false_iff_not]
      intro hje
      exact h j ⟨hje, hpj⟩

theorem findIn_nat_eq_some (q l : List Char) (hq : q ≠ []) (s c : Nat) :
    findIn q l (s : Int) = some c ↔
      s ≤ c ∧ q.isPrefixOf (l.drop c) = true ∧
      ∀ j : Nat, s ≤ j → j < c → q.isPrefixOf (l.drop j) = false := by
  rw [findIn_nat_eq, rangeFrom_find?_eq_some]
  have hq' : 0 < q.length := List.length_pos.mpr hq
  constructor
  · rintro ⟨h1, h2, h3, h4⟩
    exact ⟨h1, h3, h4⟩
  · rintro ⟨h1, h2, h3⟩
    have hcq := isPrefixOf_length_le h2
    rw [List.length_drop] at hcq
    exact ⟨h1, by omega, h2, h3⟩

theorem findIn_nat_eq_none (q l : List Char) (hq : q ≠ []) (s : Nat) :
    findIn q l (s : Int) = none ↔
      ∀ j : Nat, s ≤ j → q.isPrefixOf (l.drop j) = false := by
  rw [findIn_nat_eq, rangeFrom_find?_eq_none]
  have hq' : 0 < q.length := List.length_pos.mpr hq
  constructor
  · intro h j hj
    rcases lt_or_le j (s + (l.length + 1 - s)) with hjl | hjl
    · exact h j hj hjl
    · exact isPrefixOf_drop_false q l hq j (by omega)
  · intro h j hj _
    exact h j hj

theorem getLineText_mem (w : World) (i : Int) :
    getLineText w i ∈ w.screen.history ++ w.screen.live ∨ getLineText w i = [] := by
  unfold getLineText
  split
  · right; rfl
  · split
    · split
      · rcases lt_or_ge i.toNat w.screen.live.length with hl | hl
        · left
          rw [List.getD_eq_getElem _ _ hl]
          exact List.mem_append_right _ (List.getElem_mem hl)
        · right
          exact List.getD_eq_default _ _ hl
      · right; rfl
    · dsimp only
      split
      · right; rfl
      · split
        · rcases lt_or_ge (w.screen.history.length - 1 - i.toNat)
            w.screen.history.length with hl | hl
          · left
            rw [List.getD_eq_getElem _ _ hl]
            exact List.mem_append_left _ (List.getElem_mem hl)
          · right
            exact List.getD_eq_default _ _ hl
        · rcases lt_or_ge (i.toNat - w.screen.history.length)
            w.screen.live.length with hl | hl
          · left
            rw [List.getD_eq_getElem _ _ hl]
            exact List.mem_append_right _ (List.getElem_mem hl)
          · right
            exact List.getD_eq_default _ _ hl

theorem matchAtB_congr {w w' : World} (h : stableEq w w') (a : Int) (c : Nat) :
    matchAtB w' a c = matchAtB w a c := by
  unfold matchAtB
  rw [lowLine_congr h, h.2.2.1]

theorem lowLine_length (w : World) (a : Int) :
    (lowLine w a).length = (getLineText w a).length := by
  simp [lowLine, lowerStr]

theorem lowerStr_length (q : List Char) : (lowerStr q).length = q.length := by
  simp [lowerStr]

theorem matchAtB_le_length {w : World} {a : Int} {c : Nat} (hq : w.searchQuery ≠ [])
    (h : matchAtB w a c = true) :
    c + w.searchQuery.length ≤ (getLineText w a).length := by
  unfold matchAtB at h
  have hle := isPrefixOf_length_le h
  rw [List.length_drop, lowLine_length, lowerStr_length] at hle
  have hq' : 0 < w.searchQuery.length := List.length_pos.mpr hq
  omega

theorem moveCursorTo_result (iW : Char → Bool) (w : World) (a x : Int)
    (hw : w.windowSet = true)
    (hwid : ∀ c ∈ getLineText w a, iW c = false)
    (ha : 0 ≤ a) (ha2 : a < (totalLines w : Int))
    (hx : 0 ≤ x) (hx2 : x ≤ (w.screen.columns : Int) - 1) :
    (moveCursorTo iW w a x).cursorAbs = a ∧ (moveCursorTo iW w a x).cursorX = x ∧
    stableEq w (moveCursorTo iW w a x) := by
  have hst1 : stableEq w { w with cursorAbs := a, cursorX := x } :=
    stableEq_set_cursor w a x
  have hst2 := stableEq_trans hst1 (stableEq_ensureCursorVisible _)
  obtain ⟨hea, hex⟩ := ensureCursorVisible_cursor { w with cursorAbs := a, cursorX := x } hw
  rw [totalLines_congr hst1] at hea
  have hea' : (ensureCursorVisible { w with cursorAbs := a, cursorX := x }).cursorAbs = a := by
    rw [hea]; dsimp only; omega
  have hex' : (ensureCursorVisible { w with cursorAbs := a, cursorX := x }).cursorX = x := by
    rw [hex]; dsimp only; omega
  have hline : getLineText (ensureCursorVisible { w with cursorAbs := a, cursorX := x }) a
      = getLineText w a := getLineText_congr hst2 a
  have hsnap : snapCellX iW (ensureCursorVisible { w with cursorAbs := a, cursorX := x })
      a x = x := by
    unfold snapCellX
    rw [hline, snapCellText_eq_simple]
    exact snapSimple_width1 iW _ hwid x hx
  have hmv : moveCursorTo iW w a x
      = markDirty (syncCursor iW
          { ensureCursorVisible { w with cursorAbs := a, cursorX := x } with
            cursorX :=
              snapCellX iW (ensureCursorVisible { w with cursorAbs := a, cursorX := x })
                (ensureCursorVisible { w with cursorAbs := a, cursorX := x }).cursorAbs
                (ensureCursorVisible { w with cursorAbs := a, cursorX := x }).cursorX }) := rfl
  refine ⟨?_, ?_, ?_⟩
  · rw [hmv, markDirty_cursorAbs, syncCursor_cursorAbs]
    exact hea'
  · rw [hmv, markDirty_cursorX, syncCursor_cursorX]
    show snapCellX iW (ensureCursorVisible { w with cursorAbs := a, cursorX := x })
        (ensureCursorVisible { w with cursorAbs := a, cursorX := x }).cursorAbs
        (ensureCursorVisible { w with cursorAbs := a, cursorX := x }).cursorX = x
    rw [hea', hex']
    exact hsnap
  · rw [hmv]
    exact stableEq_trans (stableEq_trans hst2 (stableEq_set_cursorX _ _))
      (stableEq_trans (stableEq_syncCursor iW _) (stableEq_markDirty _))

theorem setX_sync_result (iW : Char → Bool) (w : World) (col : Int) :
    (markDirty (syncCursor iW { w with cursorX := col })).cursorAbs = w.cursorAbs ∧
    (markDirty (syncCursor iW { w with cursorX := col })).cursorX = col ∧
    stableEq w (markDirty (syncCursor iW { w with cursorX := col })) := by
  refine ⟨?_, ?_, ?_⟩
  · rw [markDirty_cursorAbs, syncCursor_cursorAbs]
  · rw [markDirty_cursorX, syncCursor_cursorX]
  · exact stableEq_trans (stableEq_set_cursorX w _)
      (stableEq_trans (stableEq_syncCursor iW _) (stableEq_markDirty _))

/- Evaluation of _jump_to_match one branch at a time: each lemma fixes the
values of the scrutinees reached and reads off the branch taken. -/

theorem jump_fwd_line (iW : Char → Bool) (w : World) (col : Nat)
    (hw : w.windowSet = true) (hq : w.searchQuery ≠ [])
    (h1 : findIn (lowerStr w.searchQuery) (lowLine w w.cursorAbs) (w.cursorX + 1)
      = some col) :
    jumpToMatch iW w false
      = markDirty (syncCursor iW { w with cursorX := (col : Int) }) := by
  unfold jumpToMatch
  rw [if_neg (by simp [hw, hq])]
  dsimp only
  rw [if_neg (by simp), h1]

theorem jump_fwd_scan1 (iW : Char → Bool) (w : World) (b : Int) (c : Nat)
    (hw : w.windowSet = true) (hq : w.searchQuery ≠ [])
    (h1 : findIn (lowerStr w.searchQuery) (lowLine w w.cursorAbs) (w.cursorX + 1)
      = none)
    (h2 : scanLines (fun a => findIn (lowerStr w.searchQuery) (lowLine w a) 0)
        (intRange (w.cursorAbs + 1) (totalLines w : Int)) = some (b, c)) :
    jumpToMatch iW w false = moveCursorTo iW w b (c : Int) := by
  unfold jumpToMatch
  rw [if_neg (by simp [hw, hq])]
  dsimp only
  rw [if_neg (by simp), h1, h2]

theorem jump_fwd_scan2 (iW : Char → Bool) (w : World) (b : Int) (c : Nat)
    (hw : w.windowSet = true) (hq : w.searchQuery ≠ [])
    (h1 : findIn (lowerStr w.searchQuery) (lowLine w w.cursorAbs) (w.cursorX + 1)
      = none)
    (h2 : scanLines (fun a => findIn (lowerStr w.searchQuery) (lowLine w a) 0)
        (intRange (w.cursorAbs + 1) (totalLines w : Int)) = none)
    (h3 : scanLines (fun a => findIn (lowerStr w.searchQuery) (lowLine w a) 0)
        (intRange 0 (w.cursorAbs + 1)) = some (b, c)) :
    jumpToMatch iW w false = moveCursorTo iW w b (c : Int) := by
  unfold jumpToMatch
  rw [if_neg (by simp [hw, hq])]
  dsimp only
  rw [if_neg (by simp), h1, h2, h3]

theorem jump_back_line (iW : Char → Bool) (w : World) (col : Nat)
    (hw : w.windowSet = true) (hq : w.searchQuery ≠ [])
    (h1 : rfindIn (lowerStr w.searchQuery) (lowLine w w.cursorAbs) w.cursorX
      = some col) :
    jumpToMatch iW w true
      = markDirty (syncCursor iW { w with cursorX := (col : Int) }) := by
  unfold jumpToMatch
  rw [if_neg (by simp [hw, hq])]
  dsimp only
  rw [if_pos rfl, h1]

theorem jump_back_scan1 (iW : Char → Bool) (w : World) (b : Int) (c : Nat)
    (hw : w.windowSet = true) (hq : w.searchQuery ≠ [])
    (h1 : rfindIn (lowerStr w.searchQuery) (lowLine w w.cursorAbs) w.cursorX
      = none)
    (h2 : scanLines
        (fun a => rfindIn (lowerStr w.searchQuery) (lowLine w a)
          ((lowLine w a).length : Int))
        (intRangeDesc (w.cursorAbs - 1) (-1)) = some (b, c)) :
    jumpToMatch iW w true = moveCursorTo iW w b (c : Int) := by
  unfold jumpToMatch
  rw [if_neg (by simp [hw, hq])]
  dsimp only
  rw [if_pos rfl, h1, h2]

theorem jump_back_scan2 (iW : Char → Bool) (w : World) (b : Int) (c : Nat)
    (hw : w.windowSet = true) (hq : w.searchQuery ≠ [])
    (h1 : rfindIn (lowerStr w.searchQuery) (lowLine w w.cursorAbs) w.cursorX
      = none)
    (h2 : scanLines
        (fun a => rfindIn (lowerStr w.searchQuery) (lowLine w a)
          ((lowLine w a).length : Int))
        (intRangeDesc (w.cursorAbs - 1) (-1)) = none)
    (h3 : scanLines
        (fun a => rfindIn (lowerStr w.searchQuery) (lowLine w a)
          ((lowLine w a).length : Int))
        (intRangeDesc ((totalLines w : Int) - 1) (w.cursorAbs - 1)) = some (b, c)) :
    jumpToMatch iW w true = moveCursorTo iW w b (c : Int) := by
  unfold jumpToMatch
  rw [if_neg (by simp [hw, hq])]
  dsimp only
  rw [if_pos rfl, h1, h2, h3]

/-- C7 (corrected): a forward jump followed by a backward jump returns the
cursor to its original position provided the cursor starts on a match of the
query, the matches on the cursor's line do not overlap the cursor's match,
every character in the buffer is narrow, and every line fits in the columns;
with the cursor off a match (or with overlapping matches) the round trip can
land elsewhere, so the claim's bare two-distinct-matches hypothesis does not
suffice. -/
theorem jump_forward_backward_roundtrip (iW : Char → Bool) (w : World) (x0 : Nat)
    (hw : w.windowSet = true)
    (hq : w.searchQuery ≠ [])
    (hwid : ∀ line ∈ w.screen.history ++ w.screen.live, ∀ c ∈ line, iW c = false)
    (hfit : ∀ line ∈ w.screen.history ++ w.screen.live,
      line.length ≤ w.screen.columns)
    (hx : w.cursorX = (x0 : Int))
    (hm : matchAtB w w.cursorAbs x0 = true)
    (ha0 : 0 ≤ w.cursorAbs) (ha1 : w.cursorAbs < (totalLines w : Int))
    (hno : ∀ j : Nat, j < (getLineText w w.cursorAbs).length → x0 < j →
      matchAtB w w.cursorAbs j = true → x0 + w.searchQuery.length ≤ j) :
    (jumpToMatch iW (jumpToMatch iW w false) true).cursorAbs = w.cursorAbs ∧
    (jumpToMatch iW (jumpToMatch iW w false) true).cursorX = w.cursorX := by
  have hqlen : 0 < w.searchQuery.length := List.length_pos.mpr hq
  have hqlow : lowerStr w.searchQuery ≠ [] := by simp [lowerStr, hq]
  have hm' : (lowerStr w.searchQuery).isPrefixOf ((lowLine w w.cursorAbs).drop x0)
      = true := hm
  have hwid' : ∀ i : Int, ∀ c ∈ getLineText w i, iW c = false := by
    intro i c hc
    rcases getLineText_mem w i with h | h
    · exact hwid _ h c hc
    · rw [h] at hc; cases hc
  have hlen : ∀ i : Int, (getLineText w i).length ≤ w.screen.columns := by
    intro i
    rcases getLineText_mem w i with h | h
    · exact hfit _ h
    · rw [h]; exact Nat.zero_le _
  have hmlen : ∀ (i : Int) (c : Nat), matchAtB w i c = true →
      c + w.searchQuery.length ≤ (lowLine w i).length := by
    intro i c hc
    rw [lowLine_length]
    exact matchAtB_le_length hq hc
  rcases hf1 : findIn (lowerStr w.searchQuery) (lowLine w w.cursorAbs)
      (w.cursorX + 1) with _ | col
  · -- forward branch 1 misses: no match strictly after the cursor on its line
    have hf1n := hf1
    rw [hx, show ((x0 : Int) + 1) = ((x0 + 1 : Nat) : Int) by push_cast; ring,
      findIn_nat_eq_none _ _ hqlow] at hf1n
    rcases hf2 : scanLines
        (fun i => findIn (lowerStr w.searchQuery) (lowLine w i) 0)
        (intRange (w.cursorAbs + 1) (totalLines w : Int)) with _ | r
    · -- forward wraps: no match on any later line either
      have hf2n := hf2
      unfold intRange at hf2n
      rw [scanLines_intRangeAux_eq_none] at hf2n
      have hemptyHigh : ∀ (j : Int), w.cursorAbs < j → j < (totalLines w : Int) →
          ∀ c' : Nat,
            (lowerStr w.searchQuery).isPrefixOf ((lowLine w j).drop c') = false := by
        intro j h1 h2 c'
        have hh := hf2n j (by omega) (by omega)
        rw [show (0 : Int) = ((0 : Nat) : Int) from rfl,
          findIn_nat_eq_none _ _ hqlow] at hh
        exact hh c' (Nat.zero_le _)
      rcases hf3 : scanLines
          (fun i => findIn (lowerStr w.searchQuery) (lowLine w i) 0)
          (intRange 0 (w.cursorAbs + 1)) with _ | r
      · -- impossible: the cursor's own line holds a match
        exfalso
        have hf3n := hf3
        unfold intRange at hf3n
        rw [scanLines_intRangeAux_eq_none] at hf3n
        have hh := hf3n w.cursorAbs (by omega) (by omega)
        rw [show (0 : Int) = ((0 : Nat) : Int) from rfl,
          findIn_nat_eq_none _ _ hqlow] at hh
        have hmx := hh x0 (Nat.zero_le _)
        rw [hm'] at hmx
        cases hmx
      · -- forward lands on the first matching line b in [0, cursor], at its
        -- leftmost match c
        obtain ⟨b, c⟩ := r
        have hf3c := hf3
        unfold intRange at hf3c
        rw [scanLines_intRangeAux_eq_some] at hf3c
        obtain ⟨hb0, hbu, hb3, hb4⟩ := hf3c
        have hba : b ≤ w.cursorAbs := by omega
        rw [show (0 : Int) = ((0 : Nat) : Int) from rfl,
          findIn_nat_eq_some _ _ hqlow] at hb3
        obtain ⟨_, hc2, hc3⟩ := hb3
        have hemptyLow : ∀ (j : Int), 0 ≤ j → j < b →
            ∀ c' : Nat,
              (lowerStr w.searchQuery).isPrefixOf ((lowLine w j).drop c')
                = false := by
          intro j h1 h2 c'
          have hh := hb4 j h1 h2
          rw [show (0 : Int) = ((0 : Nat) : Int) from rfl,
            findIn_nat_eq_none _ _ hqlow] at hh
          exact hh c' (Nat.zero_le _)
        have hfwd : jumpToMatch iW w false = moveCursorTo iW w b (c : Int) :=
          jump_fwd_scan2 iW w b c hw hq hf1 hf2 hf3
        have hclen : c + w.searchQuery.length ≤ (lowLine w b).length :=
          hmlen b c hc2
        have hcc : (c : Int) ≤ (w.screen.columns : Int) - 1 := by
          have h2 := hlen b
          rw [lowLine_length] at hclen
          omega
        obtain ⟨hw1a, hw1x, hst1⟩ := moveCursorTo_result iW w b (c : Int)
          hw (hwid' b) hb0 (by omega) (by omega) hcc
        rw [lowLine_length] at hclen
        set w1 := moveCursorTo iW w b (c : Int) with hw1def
        have hw1w : w1.windowSet = true := hst1.1.trans hw
        have hq1 : w1.searchQuery ≠ [] := by rw [hst1.2.2.1]; exact hq
        have hfun : (fun i : Int => rfindIn (lowerStr w1.searchQuery)
              (lowLine w1 i) ((lowLine w1 i).length : Int))
            = (fun i : Int => rfindIn (lowerStr w.searchQuery)
              (lowLine w i) ((lowLine w i).length : Int)) := by
          funext i
          rw [hst1.2.2.1, lowLine_congr hst1]
        have hb1s : rfindIn (lowerStr w1.searchQuery) (lowLine w1 w1.cursorAbs)
            w1.cursorX = none := by
          rw [hst1.2.2.1, hw1a, hw1x, lowLine_congr hst1,
            rfind_bounded_eq_none _ _ hqlow c (by rw [lowLine_length]; omega)]
          intro j
          rintro ⟨hje, hpj⟩
          rw [lowerStr_length] at hje
          rw [hc3 j (Nat.zero_le _) (by omega)] at hpj
          cases hpj
        have hb2s : scanLines
            (fun i => rfindIn (lowerStr w1.searchQuery) (lowLine w1 i)
              ((lowLine w1 i).length : Int))
            (intRangeDesc (w1.cursorAbs - 1) (-1)) = none := by
          rw [hfun, hw1a]
          unfold intRangeDesc
          rw [scanLines_intRangeDescAux_eq_none]
          intro j hj1 hj2
          rw [rfind_full_eq_none _ _ hqlow]
          intro c'
          exact hemptyLow j (by omega) (by omega) c'
        have hb3s : scanLines
            (fun i => rfindIn (lowerStr w1.searchQuery) (lowLine w1 i)
              ((lowLine w1 i).length : Int))
            (intRangeDesc ((totalLines w1 : Int) - 1) (w1.cursorAbs - 1))
            = some (w.cursorAbs, x0) := by
          rw [hfun, hw1a, totalLines_congr hst1]
          unfold intRangeDesc
          rw [scanLines_intRangeDescAux_eq_some]
          refine ⟨by omega, by omega, ?_, ?_⟩
          · rw [rfind_full_eq_some _ _ hqlow]
            refine ⟨hm', fun j hj => ?_⟩
            exact hf1n j (by omega)
          · intro j hj1 hj2
            rw [rfind_full_eq_none _ _ hqlow]
            intro c'
            exact hemptyHigh j (by omega) (by omega) c'
        have hback : jumpToMatch iW w1 true
            = moveCursorTo iW w1 w.cursorAbs ((x0 : Nat) : Int) :=
          jump_back_scan2 iW w1 w.cursorAbs x0 hw1w hq1 hb1s hb2s hb3s
        have hwid1 : ∀ ch ∈ getLineText w1 w.cursorAbs, iW ch = false := by
          rw [getLineText_congr hst1]
          exact hwid' _
        have hx0c : ((x0 : Nat) : Int) ≤ (w1.screen.columns : Int) - 1 := by
          rw [hst1.2.2.2.2.2]
          have h1 := hmlen w.cursorAbs x0 hm
          have h2 := hlen w.cursorAbs
          rw [lowLine_length] at h1
          omega
        have ha1' : w.cursorAbs < (totalLines w1 : Int) := by
          rw [totalLines_congr hst1]; exact ha1
        obtain ⟨hr1, hr2, _⟩ := moveCursorTo_result iW w1 w.cursorAbs
          ((x0 : Nat) : Int) hw1w hwid1 ha0 ha1' (by omega) hx0c
        rw [hfwd, hback]
        exact ⟨hr1, by rw [hr2, hx]⟩
    · -- forward lands on the first matching line b strictly below the cursor,
      -- at its leftmost match c
      obtain ⟨b, c⟩ := r
      have hf2c := hf2
      unfold intRange at hf2c
      rw [scanLines_intRangeAux_eq_some] at hf2c
      obtain ⟨hb1, hbu, hb3, hb4⟩ := hf2c
      have hbt : b < (totalLines w : Int) := by omega
      rw [show (0 : Int) = ((0 : Nat) : Int) from rfl,
        findIn_nat_eq_some _ _ hqlow] at hb3
      obtain ⟨_, hc2, hc3⟩ := hb3
      have hempty : ∀ (j : Int), w.cursorAbs < j → j < b →
          ∀ c' : Nat,
            (lowerStr w.searchQuery).isPrefixOf ((lowLine w j).drop c')
              = false := by
        intro j h1 h2 c'
        have hh := hb4 j (by omega) h2
        rw [show (0 : Int) = ((0 : Nat) : Int) from rfl,
          findIn_nat_eq_none _ _ hqlow] at hh
        exact hh c' (Nat.zero_le _)
      have hfwd : jumpToMatch iW w false = moveCursorTo iW w b (c : Int) :=
        jump_fwd_scan1 iW w b c hw hq hf1 hf2
      have hclen : c + w.searchQuery.length ≤ (lowLine w b).length :=
        hmlen b c hc2
      have hcc : (c : Int) ≤ (w.screen.columns : Int) - 1 := by
        have h2 := hlen b
        rw [lowLine_length] at hclen
        omega
      obtain ⟨hw1a, hw1x, hst1⟩ := moveCursorTo_result iW w b (c : Int)
        hw (hwid' b) (by omega) hbt (by omega) hcc
      rw [lowLine_length] at hclen
      set w1 := moveCursorTo iW w b (c : Int) with hw1def
      have hw1w : w1.windowSet = true := hst1.1.trans hw
      have hq1 : w1.searchQuery ≠ [] := by rw [hst1.2.2.1]; exact hq
      have hfun : (fun i : Int => rfindIn (lowerStr w1.searchQuery)
            (lowLine w1 i) ((lowLine w1 i).length : Int))
          = (fun i : Int => rfindIn (lowerStr w.searchQuery)
            (lowLine w i) ((lowLine w i).length : Int)) := by
        funext i
        rw [hst1.2.2.1, lowLine_congr hst1]
      have hb1s : rfindIn (lowerStr w1.searchQuery) (lowLine w1 w1.cursorAbs)
          w1.cursorX = none := by
        rw [hst1.2.2.1, hw1a, hw1x, lowLine_congr hst1,
          rfind_bounded_eq_none _ _ hqlow c (by rw [lowLine_length]; omega)]
        intro j
        rintro ⟨hje, hpj⟩
        rw [lowerStr_length] at hje
        rw [hc3 j (Nat.zero_le _) (by omega)] at hpj
        cases hpj
      have hb2s : scanLines
          (fun i => rfindIn (lowerStr w1.searchQuery) (lowLine w1 i)
            ((lowLine w1 i).length : Int))
          (intRangeDesc (w1.cursorAbs - 1) (-1)) = some (w.cursorAbs, x0) := by
        rw [hfun, hw1a]
        unfold intRangeDesc
        rw [scanLines_intRangeDescAux_eq_some]
        refine ⟨by omega, by omega, ?_, ?_⟩
        · rw [rfind_full_eq_some _ _ hqlow]
          refine ⟨hm', fun j hj => ?_⟩
          exact hf1n j (by omega)
        · intro j hj1 hj2
          rw [rfind_full_eq_none _ _ hqlow]
          intro c'
          exact hempty j (by omega) (by omega) c'
      have hback : jumpToMatch iW w1 true
          = moveCursorTo iW w1 w.cursorAbs ((x0 : Nat) : Int) :=
        jump_back_scan1 iW w1 w.cursorAbs x0 hw1w hq1 hb1s hb2s
      have hwid1 : ∀ ch ∈ getLineText w1 w.cursorAbs, iW ch = false := by
        rw [getLineText_congr hst1]
        exact hwid' _
      have hx0c : ((x0 : Nat) : Int) ≤ (w1.screen.columns : Int) - 1 := by
        rw [hst1.2.2.2.2.2]
        have h1 := hmlen w.cursorAbs x0 hm
        have h2 := hlen w.cursorAbs
        rw [lowLine_length] at h1
        omega
      have ha1' : w.cursorAbs < (totalLines w1 : Int) := by
        rw [totalLines_congr hst1]; exact ha1
      obtain ⟨hr1, hr2, _⟩ := moveCursorTo_result iW w1 w.cursorAbs
        ((x0 : Nat) : Int) hw1w hwid1 ha0 ha1' (by omega) hx0c
      rw [hfwd, hback]
      exact ⟨hr1, by rw [hr2, hx]⟩
  · -- forward branch 1 hits: the next match on the cursor's line, at col
    have hf1c := hf1
    rw [hx, show ((x0 : Int) + 1) = ((x0 + 1 : Nat) : Int) by push_cast; ring,
      findIn_nat_eq_some _ _ hqlow] at hf1c
    obtain ⟨hcol1, hcol2, hcol3⟩ := hf1c
    have hfwd : jumpToMatch iW w false
        = markDirty (syncCursor iW { w with cursorX := (col : Int) }) :=
      jump_fwd_line iW w col hw hq hf1
    obtain ⟨hw1a, hw1x, hst1⟩ := setX_sync_result iW w (col : Int)
    set w1 := markDirty (syncCursor iW { w with cursorX := (col : Int) })
      with hw1def
    have hw1w : w1.windowSet = true := hst1.1.trans hw
    have hq1 : w1.searchQuery ≠ [] := by rw [hst1.2.2.1]; exact hq
    have hclen : col + w.searchQuery.length ≤ (lowLine w w.cursorAbs).length :=
      hmlen _ _ hcol2
    have hnov : x0 + w.searchQuery.length ≤ col := by
      refine hno col ?_ (by omega) hcol2
      rw [lowLine_length] at hclen
      omega
    have hb1s : rfindIn (lowerStr w1.searchQuery) (lowLine w1 w1.cursorAbs)
        w1.cursorX = some x0 := by
      rw [hst1.2.2.1, hw1a, hw1x, lowLine_congr hst1,
        rfind_bounded_eq_some _ _ hqlow col x0 (by omega)]
      refine ⟨⟨?_, hm'⟩, ?_⟩
      · rw [lowerStr_length]; exact hnov
      · intro j hj
        rintro ⟨hje, hpj⟩
        rw [lowerStr_length] at hje
        rw [hcol3 j (by omega) (by omega)] at hpj
        cases hpj
    have hback : jumpToMatch iW w1 true
        = markDirty (syncCursor iW { w1 with cursorX := ((x0 : Nat) : Int) }) :=
      jump_back_line iW w1 x0 hw1w hq1 hb1s
    obtain ⟨hr1, hr2, _⟩ := setX_sync_result iW w1 ((x0 : Nat) : Int)
    rw [hfwd, hback]
    exact ⟨hr1.trans hw1a, by rw [hr2, hx]⟩

/-- C7 witness: on the line "ab cd ab" with query "ab" and the cursor on the
match at column 0, jumping forward (to column 6) and then backward returns the
cursor to (0, 0). -/
theorem jump_forward_backward_roundtrip_witness :
    (jumpToMatch wideAh (jumpToMatch wideAh wC7 false) true).cursorAbs
        = wC7.cursorAbs ∧
    (jumpToMatch wideAh (jumpToMatch wideAh wC7 false) true).cursorX
        = wC7.cursorX :=
  jump_forward_backward_roundtrip wideAh wC7 0 (by decide) (by decide)
    (by decide) (by decide) (by decide) (by decide) (by decide) (by decide)
    (by decide)

/-- C7 counterexample: with matches at (0, 0) and (2, 0) — two distinct
matches, as the claim requires — but the cursor at (1, 0), off any match, the
forward jump reaches (2, 0) and the backward jump then lands on (0, 0), not
back on (1, 0). -/
theorem jump_roundtrip_counterexample :
    matchAtB wC7c 0 0 = true ∧ matchAtB wC7c 2 0 = true ∧
    (jumpToMatch wideAh (jumpToMatch wideAh wC7c false) true).cursorAbs
      ≠ wC7c.cursorAbs := by decide

end ScrollMode
